import Mathlib

/-!
Verification development for the `chameleon` truck-scheduling core
(`src/rust/src/schedule/`).  The Rust code is shallowly embedded:

* `Time` (Rust `u64`) is `Nat`; arithmetic that the source performs with
  `checked_add_signed` is modelled with an explicit bound `timeMax = 2^64 - 1`.
* `TimeDelta` (Rust `i64`) is `Int`.
* Functions that can panic (`unwrap`, `assert!`, `unimplemented!`) are
  modelled as `Option`-returning, with `none` for the panicking run; where a
  claim distinguishes a panic from a graceful `None` return the embedding
  keeps the two apart with a nested `Option`.
* Random draws (`choose`, `random_range`) are replaced by explicit
  parameters constrained by membership guards on exactly the set or range
  the source draws from, so the set of possible results is preserved.
* `BTreeSet`/`BTreeMap` values are modelled by (sorted) association lists;
  iteration order of the model matches the source's sorted-key iteration
  whenever the lists are sorted.
-/

abbrev Time := Nat

abbrev TimeDelta := Int

/-- `u64::MAX`, the largest representable `Time`. -/
def timeMax : Nat := 2 ^ 64 - 1

/-- `intervals.rs`: `IntervalWithData<T>` — a (intended non-empty) interval
of time `[start_time, end_time)` carrying a payload. -/
structure IntervalWithData (T : Type) where
  start_time : Time
  end_time : Time
  additional_data : T
deriving DecidableEq, Repr

namespace IntervalWithData

/-- `IntervalWithData::new`: try to create an interval, `none` if its
length is non-positive. -/
def new {T : Type} (start_time end_time : Time) (additional_data : T) :
    Option (IntervalWithData T) :=
  if start_time ≥ end_time then none
  else some ⟨start_time, end_time, additional_data⟩

end IntervalWithData

/-- `intervals.rs`: `IntervalWithDataChain<T>` — a list of intervals,
intended to be non-overlapping and in increasing order. -/
structure IntervalWithDataChain (T : Type) where
  intervals : List (IntervalWithData T)
deriving DecidableEq, Repr

/-- `t` lies in some interval of the chain (the set of time points a chain
denotes; used to state the functional-correctness claims). -/
def memChain {T : Type} (t : Time) (c : IntervalWithDataChain T) : Prop :=
  ∃ iv ∈ c.intervals, iv.start_time ≤ t ∧ t < iv.end_time

instance {T : Type} (t : Time) (c : IntervalWithDataChain T) :
    Decidable (memChain t c) :=
  inferInstanceAs (Decidable (∃ iv ∈ c.intervals, iv.start_time ≤ t ∧ t < iv.end_time))

/-- `t` lies in the single interval `iv`. -/
def memInterval {T : Type} (t : Time) (iv : IntervalWithData T) : Prop :=
  iv.start_time ≤ t ∧ t < iv.end_time

instance {T : Type} (t : Time) (iv : IntervalWithData T) :
    Decidable (memInterval t iv) :=
  inferInstanceAs (Decidable (iv.start_time ≤ t ∧ t < iv.end_time))

namespace IntervalWithDataChain

/-- `IntervalWithDataChain::new`: the empty chain. -/
def empty (T : Type) : IntervalWithDataChain T := ⟨[]⟩

/-- `IntervalWithDataChain::from_interval`. -/
def from_interval {T : Type} (iv : IntervalWithData T) : IntervalWithDataChain T :=
  ⟨[iv]⟩

/-- Loop body of `IntervalWithDataChain::intersect`: the source advances
BOTH iterators on every loop iteration
(`self_it.next().zip(other_it.next())`), pushing the pairwise overlap when
the current pair of intervals intersects. -/
def intersectAux {T U : Type} :
    List (IntervalWithData T) → List (IntervalWithData U) → List (IntervalWithData T)
  | x :: xs, y :: ys =>
    if y.end_time > x.start_time ∧ x.end_time > y.start_time then
      ⟨max x.start_time y.start_time, min x.end_time y.end_time,
        x.additional_data⟩ :: intersectAux xs ys
    else intersectAux xs ys
  | _, _ => []

/-- `IntervalWithDataChain::intersect`: keeps the additional data of `self`. -/
def intersect {T U : Type} (a : IntervalWithDataChain T)
    (b : IntervalWithDataChain U) : IntervalWithDataChain T :=
  ⟨intersectAux a.intervals b.intervals⟩

/-- `IntervalWithDataChain::contained_in`: the source inspects only the
FIRST interval of the chain (`self.intervals.first()` twice). -/
def contained_in {T U : Type} (c : IntervalWithDataChain T)
    (other : IntervalWithData U) : Bool :=
  match c.intervals with
  | [] => true
  | first :: _ =>
    decide (other.start_time ≤ first.start_time) &&
      decide (first.end_time ≤ other.end_time)

/-- Loop of `IntervalWithDataChain::gaps`, carrying
`previous_end_time` and `previous_additional_data`; the trailing push of
`[previous_end_time, end_time)` happens when the loop ends (also via the
`break` once `end_time <= interval.end_time`). -/
def gapsAux {T : Type} (end_time : Time) :
    List (IntervalWithData T) → Time → Option T →
      List (IntervalWithData (Option T × Option T))
  | [], prevEnd, prevData =>
    if prevEnd < end_time then [⟨prevEnd, end_time, (prevData, none)⟩] else []
  | iv :: rest, prevEnd, prevData =>
    if iv.start_time ≤ prevEnd then
      -- `continue`: note `previous_end_time` is NOT advanced
      gapsAux end_time rest prevEnd prevData
    else
      let gap : IntervalWithData (Option T × Option T) :=
        ⟨prevEnd, iv.start_time, (prevData, some iv.additional_data)⟩
      if end_time ≤ iv.end_time then
        -- `break`; the final `previous_end_time < end_time` check fails
        [gap]
      else gap :: gapsAux end_time rest iv.end_time (some iv.additional_data)

/-- `IntervalWithDataChain::gaps`. -/
def gaps {T U : Type} (c : IntervalWithDataChain T) (other : IntervalWithData U) :
    IntervalWithDataChain (Option T × Option T) :=
  ⟨gapsAux other.end_time c.intervals other.start_time none⟩

/-- `IntervalWithDataChain::try_add`: the source finds the first index whose
interval starts no earlier than `new` ends, checks the predecessor at
`index - 1` when it exists, and otherwise pushes `new` at the very end
WITHOUT any overlap check.  Returns the success flag together with the
(possibly) updated chain, modelling the `&mut self` update. -/
def try_add {T : Type} (c : IntervalWithDataChain T) (nw : IntervalWithData T) :
    Bool × IntervalWithDataChain T :=
  match c.intervals.findIdx? (fun iv => decide (iv.start_time ≥ nw.end_time)) with
  | some index =>
    if index > 0 then
      match c.intervals[index - 1]? with
      | some prev =>
        if prev.end_time ≤ nw.start_time then
          (true, ⟨c.intervals.insertIdx index nw⟩)
        else (false, c)
      | none => (false, c)  -- unreachable: `index - 1 < length`
    else (true, ⟨c.intervals.insertIdx index nw⟩)
  | none => (true, ⟨c.intervals ++ [nw]⟩)

/-- `IntervalWithDataChain::is_empty`. -/
def is_empty {T : Type} (c : IntervalWithDataChain T) : Bool :=
  c.intervals.isEmpty

end IntervalWithDataChain

/-- `intervals.rs`: `intersect_all` — fold of `intersect` whose identity
element is the singleton chain `[Time::MIN, Time::MAX)`. -/
def intersectAll {T : Type} (chains : List (IntervalWithDataChain T)) :
    IntervalWithDataChain Unit :=
  chains.foldl (fun acc c => acc.intersect c)
    (IntervalWithDataChain.from_interval ⟨0, timeMax, ()⟩)

/-- Computable check that consecutive elements of a list are related by
`r` (the `slice.windows(2).all(...)` pattern of the source's assertions). -/
def listChainB {A : Type} (r : A → A → Bool) : List A → Bool
  | [] => true
  | [_] => true
  | a :: b :: rest => r a b && listChainB r (b :: rest)

/-- The chain has pairwise non-overlapping intervals in increasing order
(the documented invariant "a list of non-overlapping intervals in an
increasing order"). -/
def chainSortedDisjoint {T : Type} (c : IntervalWithDataChain T) : Prop :=
  listChainB (fun a b => decide (a.end_time ≤ b.start_time)) c.intervals = true

instance {T : Type} (c : IntervalWithDataChain T) :
    Decidable (chainSortedDisjoint c) :=
  inferInstanceAs (Decidable (_ = true))

/-- `schedule.rs`: nominal handle `Terminal(usize)`. -/
structure Terminal where
  id : Nat
deriving DecidableEq, Repr

/-- `schedule.rs`: nominal handle `Cargo(usize)`. -/
structure Cargo where
  id : Nat
deriving DecidableEq, Repr

/-- `schedule.rs`: nominal handle `Truck(usize)`. -/
structure Truck where
  id : Nat
deriving DecidableEq, Repr

/-! Association lists modelling `BTreeMap`.  `alGet` is `get`; `alInsert`
keeps the list sorted by a numeric key and replaces an existing binding,
exactly as `BTreeMap::insert`; `alErase` is `BTreeMap::remove` (for maps
whose keys are unique, removal of every binding of the key). -/

/-- `BTreeMap::get` on an association list (first binding of the key). -/
def alGet {K V : Type} [DecidableEq K] (l : List (K × V)) (k : K) : Option V :=
  (l.find? (fun p => p.1 = k)).map Prod.snd

/-- `BTreeMap::insert` on an association list kept sorted by `key`. -/
def alInsert {K V : Type} (key : K → Nat) (k : K) (v : V) :
    List (K × V) → List (K × V)
  | [] => [(k, v)]
  | (k', v') :: rest =>
    if key k < key k' then (k, v) :: (k', v') :: rest
    else if key k = key k' then (k, v) :: rest
    else (k', v') :: alInsert key k v rest

/-- `BTreeMap::remove` on an association list with unique keys. -/
def alErase {K V : Type} (key : K → Nat) (k : K) (l : List (K × V)) :
    List (K × V) :=
  l.filter (fun p => key p.1 ≠ key k)

/-- In-place value update at an existing key (`get_mut`, and `insert` for a
key already present): replaces the value without moving the binding. -/
def alSet {K V : Type} [DecidableEq K] (l : List (K × V)) (k : K) (v : V) :
    List (K × V) :=
  l.map (fun p => if p.1 = k then (p.1, v) else p)

/-! `BTreeSet<Cargo>` modelled as a list kept sorted by id without
duplicates; `insertCargo` is `insert`, `removeCargo` is `remove`. -/

/-- `BTreeSet::insert` on a sorted duplicate-free cargo list. -/
def insertCargo (c : Cargo) : List Cargo → List Cargo
  | [] => [c]
  | x :: xs =>
    if c.id < x.id then c :: x :: xs
    else if c.id = x.id then x :: xs
    else x :: insertCargo c xs

/-- `BTreeSet::remove` on a sorted duplicate-free cargo list. -/
def removeCargo (c : Cargo) (l : List Cargo) : List Cargo :=
  l.filter (fun x => x.id ≠ c.id)

/-- `schedule.rs`: `Checkpoint` — an operation the truck carries out.
`available_teu`/`available_weight_kg` describe capacity left after this
checkpoint's pickups and dropoffs. -/
structure Checkpoint where
  time : Time
  terminal : Terminal
  pickup_cargo : List Cargo
  dropoff_cargo : List Cargo
  available_teu : Nat
  available_weight_kg : Nat
deriving DecidableEq, Repr

/-- `schedule.rs`: `Schedule`.  The three `BTreeMap`s become association
lists; `truck_driving_times` values are `TimeDelta` (`i64`). -/
structure Schedule where
  truck_checkpoints : List (Truck × List Checkpoint)
  scheduled_cargo_truck : List (Cargo × Truck)
  truck_driving_times : List (Truck × TimeDelta)
deriving DecidableEq, Repr

/-- `schedule.rs`: `TruckData`. -/
structure TruckData where
  starting_terminal : Terminal
  start_time : Time
  max_weight_kg : Nat
  max_teu : Nat
deriving DecidableEq, Repr

/-- `schedule.rs`: `BookingInformation` (`from`/`to` are Lean keywords, so
the fields are named `fromT`/`toT`). -/
structure BookingInformation where
  fromT : Terminal
  toT : Terminal
  weight_kg : Nat
  teu : Nat
deriving DecidableEq, Repr

/-- `schedule.rs`: `PyBooking`, the externally supplied booking record. -/
structure PyBooking where
  cargo : String
  cargo_weight_kg : Nat
  cargo_teu : Nat
  from_terminal : String
  to_terminal : String
  pickup_open_time : Time
  pickup_close_time : Time
  dropoff_open_time : Time
  dropoff_close_time : Time
deriving DecidableEq, Repr

/-- `schedule.rs`: `PyTruckData`, the externally supplied truck record. -/
structure PyTruckData where
  starting_terminal : String
  max_weight_kg : Nat
  max_teu : Nat
deriving DecidableEq, Repr

/-- `counter_mapper.rs`: `CounterMapper<String>` — a counter plus the two
`BTreeMap`s `map : usize -> String` and `reverse_map : String -> usize`. -/
structure CounterMapper where
  counter : Nat
  map : List (Nat × String)
  reverse_map : List (String × Nat)
deriving DecidableEq, Repr

namespace CounterMapper

/-- `CounterMapper::new`. -/
def new : CounterMapper := ⟨0, [], []⟩

/-- `CounterMapper::add_or_find`: return an existing index or assign the
next sequential one (returning the updated mapper, modelling `&mut self`). -/
def addOrFind (m : CounterMapper) (x : String) : Nat × CounterMapper :=
  match alGet m.reverse_map x with
  | some index => (index, m)
  | none =>
    (m.counter,
      ⟨m.counter + 1, m.map ++ [(m.counter, x)], m.reverse_map ++ [(x, m.counter)]⟩)

end CounterMapper

/-- `schedule.rs`: `ScheduleGenerator`.  The driving-times cache is the
underlying `BTreeMap` data as a partial function; the RNG is omitted
because every random draw is modelled as an explicit parameter. -/
structure ScheduleGenerator where
  driving_times_cache : Terminal → Terminal → Option TimeDelta
  cargo_by_terminals : List ((Terminal × Terminal) × List Cargo)
  pickup_times : List (Cargo × IntervalWithDataChain Unit)
  dropoff_times : List (Cargo × IntervalWithDataChain Unit)
  cargo_booking_info : List (Cargo × BookingInformation)
  terminals : List Terminal
  trucks : List Truck
  truck_data : List (Truck × TruckData)
  planning_period : IntervalWithData Unit
  terminal_mapper : CounterMapper
  cargo_mapper : CounterMapper
  truck_mapper : CounterMapper

/-- `u64::checked_add_signed`: `none` when the result leaves `[0, u64::MAX]`. -/
def checkedAddSigned (n : Nat) (d : Int) : Option Nat :=
  if 0 ≤ (n : Int) + d ∧ (n : Int) + d ≤ (timeMax : Int) then
    some ((n : Int) + d).toNat
  else none

/-- `usize::checked_sub`. -/
def checkedSub (a b : Nat) : Option Nat :=
  if b ≤ a then some (a - b) else none

/-- `schedule.rs`: `DrivingTimesCache::get_driving_time` — returns 0 on the
diagonal without consulting the map; otherwise a cache hit (with the
`assert!(out >= 0)`), and a panic (`unimplemented!`) on a miss, both
modelled as `Option`. -/
def getCacheDrivingTime (cache : Terminal → Terminal → Option TimeDelta)
    (fromT toT : Terminal) : Option TimeDelta :=
  if fromT = toT then some 0
  else match cache fromT toT with
    | some out => if 0 ≤ out then some out else none
    | none => none

namespace ScheduleGenerator

/-- `ScheduleGenerator::get_driving_time`: `from = none` means the truck's
starting terminal, `to = none` means no restriction (0 driving time). -/
def getDrivingTime (G : ScheduleGenerator) (fromT toT : Option Terminal)
    (truck : Truck) : Option TimeDelta := do
  let f ← match fromT with
    | some f => some f
    | none => (alGet G.truck_data truck).map (·.starting_terminal)
  match toT with
  | some t => getCacheDrivingTime G.driving_times_cache f t
  | none => some 0

/-- `ScheduleGenerator::get_driving_time_constraints`.  The outer `Option`
is `none` exactly on a panicking run (a missing matrix entry, a negative
cached entry, a missing truck, or a failing `checked_add_signed` unwrap);
the inner `Option` is the function's own `Option<Interval>` result. -/
def getDrivingTimeConstraints (G : ScheduleGenerator) (truck : Truck)
    (prev_checkpoint next_checkpoint : Option Checkpoint)
    (new_terminal : Terminal) : Option (Option (IntervalWithData Unit)) := do
  let prev_time := (prev_checkpoint.map (·.time)).getD G.planning_period.start_time
  let next_time := (next_checkpoint.map (·.time)).getD G.planning_period.end_time
  let driving_time1 ←
    G.getDrivingTime (prev_checkpoint.map (·.terminal)) (some new_terminal) truck
  let driving_time2 ←
    G.getDrivingTime (some new_terminal) (next_checkpoint.map (·.terminal)) truck
  let earliest ← checkedAddSigned prev_time driving_time1
  let latest ← checkedAddSigned next_time (-driving_time2)
  pure (IntervalWithData.new earliest latest ())

/-- `ScheduleGenerator::get_gap_terminals`: the terminal before the gap
(the truck's starting terminal when there is no previous checkpoint) and
the optional terminal after it. -/
def getGapTerminals (G : ScheduleGenerator) (truck : Truck)
    (prev_checkpoint next_checkpoint : Option Checkpoint) :
    Option (Terminal × Option Terminal) := do
  let prev_terminal ← match prev_checkpoint with
    | some p => some p.terminal
    | none => (alGet G.truck_data truck).map (·.starting_terminal)
  pure (prev_terminal, next_checkpoint.map (·.terminal))

/-- `ScheduleGenerator::assert_truck_checkpoints_invariant`: consecutive
checkpoints have distinct terminals, the first differs from the starting
terminal, and times are strictly ascending; an assertion failure is a
panic, modelled as `none`. -/
def checkTruckInvariant (G : ScheduleGenerator) (truck : Truck)
    (cps : List Checkpoint) : Option Unit := do
  guard (listChainB (fun a b => decide (a.terminal ≠ b.terminal)) cps = true)
  match cps.head? with
  | some first_checkpoint => do
    let td ← alGet G.truck_data truck
    guard (first_checkpoint.terminal ≠ td.starting_terminal)
  | none => pure ()
  guard (listChainB (fun a b => decide (a.time < b.time)) cps = true)

end ScheduleGenerator

/-- `Schedule::get_prev_and_next_checkpoints` on a truck's checkpoint list:
last checkpoint with `time < t` (strict) and first with `time > t`
(strict). -/
def prevAndNext (cps : List Checkpoint) (t : Time) :
    Option Checkpoint × Option Checkpoint :=
  (cps.reverse.find? (fun c => decide (c.time < t)),
   cps.find? (fun c => decide (t < c.time)))

/-- `Schedule::get_checkpoints_around_gap`: last checkpoint with
`time ≤ t` (weak) and first with `time > t` (strict). -/
def aroundGap (cps : List Checkpoint) (t : Time) :
    Option Checkpoint × Option Checkpoint :=
  (cps.reverse.find? (fun c => decide (c.time ≤ t)),
   cps.find? (fun c => decide (t < c.time)))

/-- `BTreeSet::insert` on a sorted duplicate-free terminal list. -/
def insertTerminal (t : Terminal) : List Terminal → List Terminal
  | [] => [t]
  | x :: xs =>
    if t.id < x.id then t :: x :: xs
    else if t.id = x.id then x :: xs
    else x :: insertTerminal t xs

namespace ScheduleGenerator

/-- `ScheduleGenerator::empty_schedule`. -/
def emptySchedule (G : ScheduleGenerator) : Schedule :=
  ⟨G.trucks.map (fun t => (t, [])), [], G.trucks.map (fun t => (t, 0))⟩

/-- `ScheduleGenerator::add_random_checkpoint`.  The four random draws
(`truck`, `time_to_identify_gap`, `new_terminal`, `new_time`) are
parameters guarded by membership in exactly the sets the source draws
from. -/
def addRandomCheckpoint (G : ScheduleGenerator) (S : Schedule) (truck : Truck)
    (time_to_identify_gap : Time) (new_terminal : Terminal) (new_time : Time) :
    Option Schedule := do
  guard (truck ∈ G.trucks)
  guard (G.planning_period.start_time ≤ time_to_identify_gap ∧
    time_to_identify_gap < G.planning_period.end_time)
  let cps ← alGet S.truck_checkpoints truck
  let (prev_checkpoint, next_checkpoint) := aroundGap cps time_to_identify_gap
  let (prev_terminal, next_terminal) ←
    G.getGapTerminals truck prev_checkpoint next_checkpoint
  let possible_terminals := G.cargo_booking_info.foldl
    (fun acc p =>
      let booking_info := p.2
      if (alGet S.scheduled_cargo_truck p.1).isSome then acc
      else
        let acc1 :=
          if booking_info.fromT ≠ prev_terminal ∧
              some booking_info.fromT ≠ next_terminal then
            insertTerminal booking_info.fromT acc
          else acc
        if booking_info.toT ≠ prev_terminal ∧
            some booking_info.toT ≠ next_terminal then
          match cps.find? (fun cp => cp.terminal = booking_info.fromT) with
          | some first_from_checkpoint =>
            if first_from_checkpoint.time < time_to_identify_gap then
              insertTerminal booking_info.toT acc1
            else acc1
          | none => acc1
        else acc1)
    []
  guard (new_terminal ∈ possible_terminals)
  let allowed_time_interval ←
    (← G.getDrivingTimeConstraints truck prev_checkpoint next_checkpoint new_terminal)
  guard (allowed_time_interval.start_time ≤ new_time ∧
    new_time < allowed_time_interval.end_time)
  let new_checkpoint_index :=
    (cps.findIdx? (fun cp => decide (new_time < cp.time))).getD cps.length
  let (prev_available_teu, prev_available_weight_kg) ← match prev_checkpoint with
    | some p => pure (p.available_teu, p.available_weight_kg)
    | none => do
      let td ← alGet G.truck_data truck
      pure (td.max_teu, td.max_weight_kg)
  let new_cps := cps.insertIdx new_checkpoint_index
    ⟨new_time, new_terminal, [], [], prev_available_teu, prev_available_weight_kg⟩
  let out1 : Schedule :=
    { S with truck_checkpoints := alSet S.truck_checkpoints truck new_cps }
  let _u ← G.checkTruckInvariant truck new_cps
  let driving_time ← alGet out1.truck_driving_times truck
  let time_a_to_c ← G.getDrivingTime (some prev_terminal) next_terminal truck
  let time_a_to_b ← G.getDrivingTime (some prev_terminal) (some new_terminal) truck
  let time_b_to_c ← G.getDrivingTime (some new_terminal) next_terminal truck
  let driving_time2 := driving_time - time_a_to_c + (time_a_to_b + time_b_to_c)
  guard (0 ≤ driving_time2)
  pure { out1 with
    truck_driving_times := alSet out1.truck_driving_times truck driving_time2 }

/-- `ScheduleGenerator::remove_random_checkpoint`.  `get_random_checkpoint`
draws uniformly over all `(truck, index)` pairs; the pair is a guarded
parameter. -/
def removeRandomCheckpoint (G : ScheduleGenerator) (S : Schedule)
    (truck : Truck) (index : Nat) : Option Schedule := do
  let cps ← alGet S.truck_checkpoints truck
  let checkpoint ← cps[index]?
  guard (checkpoint.pickup_cargo = [] ∧ checkpoint.dropoff_cargo = [])
  let (prev_checkpoint, next_checkpoint) := prevAndNext cps checkpoint.time
  let (prev_terminal, next_terminal) ←
    G.getGapTerminals truck prev_checkpoint next_checkpoint
  guard (some prev_terminal ≠ next_terminal)
  let new_cps := cps.eraseIdx index
  let out1 : Schedule :=
    { S with truck_checkpoints := alSet S.truck_checkpoints truck new_cps }
  let _u ← G.checkTruckInvariant truck new_cps
  let driving_time ← alGet out1.truck_driving_times truck
  let prevT := prev_checkpoint.map (·.terminal)
  let nextT := next_checkpoint.map (·.terminal)
  let time_a_to_c ← G.getDrivingTime prevT nextT truck
  let time_a_to_b ← G.getDrivingTime prevT (some checkpoint.terminal) truck
  let time_b_to_c ← G.getDrivingTime (some checkpoint.terminal) nextT truck
  let driving_time2 := driving_time + time_a_to_c - (time_a_to_b + time_b_to_c)
  guard (0 ≤ driving_time2)
  pure { out1 with
    truck_driving_times := alSet out1.truck_driving_times truck driving_time2 }

end ScheduleGenerator

/-- Loop of `remove_random_delivery` restoring `available_*` over the
checkpoint index range `[k, k + n)`, with the two
`assert!(... <= truck_data.max_*)` checks. -/
def availAddLoop (booking_info : BookingInformation) (truck_data : TruckData) :
    List Checkpoint → Nat → Nat → Option (List Checkpoint)
  | cps, _, 0 => some cps
  | cps, k, n + 1 => do
    let cp ← cps[k]?
    let w := cp.available_weight_kg + booking_info.weight_kg
    guard (w ≤ truck_data.max_weight_kg)
    let te := cp.available_teu + booking_info.teu
    guard (te ≤ truck_data.max_teu)
    availAddLoop booking_info truck_data
      (cps.set k { cp with available_weight_kg := w, available_teu := te })
      (k + 1) n

/-- Loop of `add_random_delivery` decrementing `available_*` over the
checkpoint index range `[k, k + n)` with `checked_sub` (immediate failure
on a violated capacity constraint). -/
def availSubLoop (booking_info : BookingInformation) :
    List Checkpoint → Nat → Nat → Option (List Checkpoint)
  | cps, _, 0 => some cps
  | cps, k, n + 1 => do
    let cp ← cps[k]?
    let w ← checkedSub cp.available_weight_kg booking_info.weight_kg
    let te ← checkedSub cp.available_teu booking_info.teu
    availSubLoop booking_info
      (cps.set k { cp with available_weight_kg := w, available_teu := te })
      (k + 1) n

namespace ScheduleGenerator

/-- `ScheduleGenerator::remove_random_delivery`.  The `(cargo, truck)` draw
from `scheduled_cargo_truck` becomes the `cargo` parameter with the truck
read off the map. -/
def removeRandomDelivery (G : ScheduleGenerator) (S : Schedule) (cargo : Cargo) :
    Option Schedule := do
  let truck ← alGet S.scheduled_cargo_truck cargo
  let cps ← alGet S.truck_checkpoints truck
  let start_checkpoint_index ←
    cps.findIdx? (fun cp => decide (cargo ∈ cp.pickup_cargo))
  let start_checkpoint ← cps[start_checkpoint_index]?
  let cps1 := cps.set start_checkpoint_index
    { start_checkpoint with
      pickup_cargo := removeCargo cargo start_checkpoint.pickup_cargo }
  guard (cps1.countP (fun cp => decide (cargo ∈ cp.pickup_cargo)) = 0)
  let end_checkpoint_index ←
    cps1.findIdx? (fun cp => decide (cargo ∈ cp.dropoff_cargo))
  let end_checkpoint ← cps1[end_checkpoint_index]?
  let cps2 := cps1.set end_checkpoint_index
    { end_checkpoint with
      dropoff_cargo := removeCargo cargo end_checkpoint.dropoff_cargo }
  guard (cps2.countP (fun cp => decide (cargo ∈ cp.dropoff_cargo)) = 0)
  let booking_info ← alGet G.cargo_booking_info cargo
  let truck_data ← alGet G.truck_data truck
  -- `&mut checkpoints[start..end]` panics when `start > end`
  guard (start_checkpoint_index ≤ end_checkpoint_index)
  let cps3 ← availAddLoop booking_info truck_data cps2 start_checkpoint_index
    (end_checkpoint_index - start_checkpoint_index)
  pure { S with
    truck_checkpoints := alSet S.truck_checkpoints truck cps3,
    scheduled_cargo_truck := alErase Cargo.id cargo S.scheduled_cargo_truck }

/-- `ScheduleGenerator::find_random_reschedule_time`.  The draw of a chain
element and then of a time inside it becomes the `chosen_time` parameter,
guarded to lie in some interval of the allowed chain. -/
def findRandomRescheduleTime (G : ScheduleGenerator) (S : Schedule)
    (truck : Truck) (old_checkpoint_index : Nat)
    (new_pickup new_dropoff : List Cargo) (chosen_time : Time) : Option Time := do
  let cps ← alGet S.truck_checkpoints truck
  let old_checkpoint ← cps[old_checkpoint_index]?
  let pickup_chains ← new_pickup.mapM (fun c => alGet G.pickup_times c)
  let pickup_restriction_intervals := intersectAll pickup_chains
  let dropoff_chains ← new_dropoff.mapM (fun c => alGet G.dropoff_times c)
  let dropoff_restriction_intervals := intersectAll dropoff_chains
  let (checkpoint_before, checkpoint_after) := prevAndNext cps old_checkpoint.time
  let driving ← (← G.getDrivingTimeConstraints truck checkpoint_before
    checkpoint_after old_checkpoint.terminal)
  let allowed_intervals := intersectAll
    [pickup_restriction_intervals, dropoff_restriction_intervals,
     IntervalWithDataChain.from_interval driving,
     IntervalWithDataChain.from_interval G.planning_period]
  let _iv ← allowed_intervals.intervals.find?
    (fun iv => decide (iv.start_time ≤ chosen_time) &&
      decide (chosen_time < iv.end_time))
  pure chosen_time

/-- `ScheduleGenerator::add_random_delivery`.  The draws (truck; a cargo
with an `(i, j)` checkpoint pair from `available_cargo_checkpoints`; the
two reschedule times) are parameters; the guards are exactly the
conditions under which the drawn-from collections contain them. -/
def addRandomDelivery (G : ScheduleGenerator) (S : Schedule) (truck : Truck)
    (cargo : Cargo) (start_checkpoint_index end_checkpoint_index : Nat)
    (t1 t2 : Time) : Option Schedule := do
  let cps ← alGet S.truck_checkpoints truck
  guard (start_checkpoint_index < end_checkpoint_index)
  let start_checkpoint ← cps[start_checkpoint_index]?
  let end_checkpoint ← cps[end_checkpoint_index]?
  let cargo_collection ←
    alGet G.cargo_by_terminals (start_checkpoint.terminal, end_checkpoint.terminal)
  guard (cargo ∈ cargo_collection)
  guard ((alGet S.scheduled_cargo_truck cargo).isNone)
  let new_start_checkpoint_pickup := insertCargo cargo start_checkpoint.pickup_cargo
  let new_end_checkpoint_dropoff := insertCargo cargo end_checkpoint.dropoff_cargo
  let new_start_checkpoint_time ← G.findRandomRescheduleTime S truck
    start_checkpoint_index new_start_checkpoint_pickup
    start_checkpoint.dropoff_cargo t1
  let cur_start ← cps[start_checkpoint_index]?
  let cpsA := cps.set start_checkpoint_index
    { cur_start with
      pickup_cargo := insertCargo cargo cur_start.pickup_cargo,
      time := new_start_checkpoint_time }
  let out1 : Schedule :=
    { S with truck_checkpoints := alSet S.truck_checkpoints truck cpsA }
  let new_end_checkpoint_time ← G.findRandomRescheduleTime out1 truck
    end_checkpoint_index end_checkpoint.pickup_cargo new_end_checkpoint_dropoff t2
  let cur_end ← cpsA[end_checkpoint_index]?
  let cpsB := cpsA.set end_checkpoint_index
    { cur_end with
      dropoff_cargo := insertCargo cargo cur_end.dropoff_cargo,
      time := new_end_checkpoint_time }
  guard (listChainB (fun a b => decide (a.time < b.time)) cpsB = true)
  let booking_info ← alGet G.cargo_booking_info cargo
  let cpsC ← availSubLoop booking_info cpsB start_checkpoint_index
    (end_checkpoint_index - start_checkpoint_index)
  pure { S with
    truck_checkpoints := alSet S.truck_checkpoints truck cpsC,
    scheduled_cargo_truck := alInsert Cargo.id cargo truck S.scheduled_cargo_truck }

end ScheduleGenerator

/-- One bundle of random draws for a single operator attempt (the fields a
given operator does not use are ignored by it). -/
structure MutationChoice where
  truck : Truck
  index : Nat
  gapTime : Time
  newTerminal : Terminal
  newTime : Time
  cargo : Cargo
  pairI : Nat
  pairJ : Nat
  time1 : Time
  time2 : Time
deriving Repr

namespace ScheduleGenerator

/-- The operator dispatch inside `get_schedule_neighbour`'s loop
(`match action_index { 0..1 | 1..2 | 2..3 | 3..4 }`). -/
def attemptAction (G : ScheduleGenerator) (S : Schedule) (action_index : Nat)
    (c : MutationChoice) : Option Schedule :=
  match action_index with
  | 0 => G.removeRandomCheckpoint S c.truck c.index
  | 1 => G.addRandomCheckpoint S c.truck c.gapTime c.newTerminal c.newTime
  | 2 => G.removeRandomDelivery S c.cargo
  | 3 => G.addRandomDelivery S c.truck c.cargo c.pairI c.pairJ c.time1 c.time2
  | _ => none

/-- The inner `for _ in 0..num_tries_per_action` loop: perform up to `n`
attempts of the chosen operator, returning the first success. -/
def tryAttempts (G : ScheduleGenerator) (S : Schedule) (action_index : Nat)
    (choices : Nat → MutationChoice) : Nat → Option Schedule
  | 0 => none
  | n + 1 =>
    match G.attemptAction S action_index (choices n) with
    | some s => some s
    | none => G.tryAttempts S action_index choices n

/-- `ScheduleGenerator::get_schedule_neighbour`, with the unbounded `loop`
given an explicit iteration budget `fuel` (`none` = the loop has not
returned within `fuel` iterations).  `acts k` is the draw
`rng.random_range(0..4)` of iteration `k`; `choices k` are the draws of
that iteration's attempts. -/
def getScheduleNeighbourFuel (G : ScheduleGenerator) (S : Schedule)
    (num_tries_per_action : Nat) (acts : Nat → Nat)
    (choices : Nat → Nat → MutationChoice) : Nat → Option Schedule
  | 0 => none
  | fuel + 1 =>
    match G.tryAttempts S (acts fuel % 4) (choices fuel) num_tries_per_action with
    | some s => some s
    | none => G.getScheduleNeighbourFuel S num_tries_per_action acts choices fuel

end ScheduleGenerator

/-- The schedules reachable from `empty_schedule` by any finite sequence of
successful mutation-operator calls (the successes are exactly what
`get_schedule_neighbour` can return). -/
inductive Reachable (G : ScheduleGenerator) : Schedule → Prop where
  | empty : Reachable G G.emptySchedule
  | step {S S' : Schedule} (action_index : Nat) (c : MutationChoice) :
      Reachable G S → G.attemptAction S action_index c = some S' →
      Reachable G S'

/-- `schedule.rs`: `interval_or_error` — builds the interval or reports the
invalid input (the `PyErr` is modelled as `none`). -/
def intervalOrError (start_time end_time : Time) : Option (IntervalWithData Unit) :=
  IntervalWithData.new start_time end_time ()

/-- `BTreeSet::insert` on a sorted duplicate-free truck list. -/
def insertTruck (t : Truck) : List Truck → List Truck
  | [] => [t]
  | x :: xs =>
    if t.id < x.id then t :: x :: xs
    else if t.id = x.id then x :: xs
    else x :: insertTruck t xs

/-- `BTreeMap::insert` for maps whose key order is never observed
(`cargo_by_terminals`): replace an existing binding, else append. -/
def alUpsert {K V : Type} [DecidableEq K] (l : List (K × V)) (k : K) (v : V) :
    List (K × V) :=
  if (alGet l k).isSome then alSet l k v else l ++ [(k, v)]

/-- One iteration of the terminal loop of `ScheduleGenerator::new`
(`schedule.rs` lines 996–1006): intern the terminal id and record its
opening chain. -/
def terminalLoopStep
    (st : CounterMapper × List (Terminal × IntervalWithDataChain Unit))
    (p : String × (Time × Time)) :
    Option (CounterMapper × List (Terminal × IntervalWithDataChain Unit)) := do
  let (idx, m1) := st.1.addOrFind p.1
  let interval ← intervalOrError p.2.1 p.2.2
  pure (m1, alInsert Terminal.id ⟨idx⟩
    (IntervalWithDataChain.from_interval interval) st.2)

/-- One iteration of the truck loop of `ScheduleGenerator::new`
(`schedule.rs` lines 1012–1019): intern the truck and its starting
terminal, and mark both active. -/
def truckLoopStep
    (st : CounterMapper × CounterMapper × List Truck × List Terminal)
    (p : String × PyTruckData) :
    CounterMapper × CounterMapper × List Truck × List Terminal :=
  let (tidx, tm1) := st.1.addOrFind p.1
  let (sidx, em1) := st.2.1.addOrFind p.2.starting_terminal
  (tm1, em1, insertTruck ⟨tidx⟩ st.2.2.1, insertTerminal ⟨sidx⟩ st.2.2.2)

/-- State threaded through the booking loop of `ScheduleGenerator::new`. -/
structure BookingLoopState where
  terminal_mapper : CounterMapper
  cargo_mapper : CounterMapper
  pickup_times : List (Cargo × IntervalWithDataChain Unit)
  dropoff_times : List (Cargo × IntervalWithDataChain Unit)
  cargo_booking_info : List (Cargo × BookingInformation)
  cargo_by_terminals : List ((Terminal × Terminal) × List Cargo)
  terminals : List Terminal

/-- One iteration of the booking loop of `ScheduleGenerator::new`
(`schedule.rs` lines 1028–1094): intern the endpoints, compute the
effective pickup and dropoff chains, drop the booking (`continue`) when
either is empty, otherwise record it and mark its terminals active. -/
def bookingLoopStep
    (terminal_open_intervals : List (Terminal × IntervalWithDataChain Unit))
    (planning_chain : IntervalWithDataChain Unit)
    (st : BookingLoopState) (b : PyBooking) : Option BookingLoopState := do
  let (fidx, em1) := st.terminal_mapper.addOrFind b.from_terminal
  let (tidx, em2) := em1.addOrFind b.to_terminal
  let from_terminal : Terminal := ⟨fidx⟩
  let to_terminal : Terminal := ⟨tidx⟩
  let from_chain ← alGet terminal_open_intervals from_terminal
  let pickup_window ← intervalOrError b.pickup_open_time b.pickup_close_time
  let pickup_intervals := intersectAll
    [from_chain, IntervalWithDataChain.from_interval pickup_window, planning_chain]
  let to_chain ← alGet terminal_open_intervals to_terminal
  let dropoff_window ← intervalOrError b.dropoff_open_time b.dropoff_close_time
  let dropoff_intervals := intersectAll
    [to_chain, IntervalWithDataChain.from_interval dropoff_window, planning_chain]
  if pickup_intervals.is_empty || dropoff_intervals.is_empty then
    pure { st with terminal_mapper := em2 }
  else
    let (cidx, cm1) := st.cargo_mapper.addOrFind b.cargo
    let cargo : Cargo := ⟨cidx⟩
    let booking_info : BookingInformation :=
      ⟨from_terminal, to_terminal, b.cargo_weight_kg, b.cargo_teu⟩
    pure { terminal_mapper := em2, cargo_mapper := cm1,
           pickup_times := alInsert Cargo.id cargo pickup_intervals st.pickup_times,
           dropoff_times := alInsert Cargo.id cargo dropoff_intervals st.dropoff_times,
           cargo_booking_info :=
             alInsert Cargo.id cargo booking_info st.cargo_booking_info,
           cargo_by_terminals := alUpsert st.cargo_by_terminals
             (from_terminal, to_terminal)
             (insertCargo cargo
               ((alGet st.cargo_by_terminals (from_terminal, to_terminal)).getD [])),
           terminals :=
             insertTerminal to_terminal (insertTerminal from_terminal st.terminals) }

namespace ScheduleGenerator

/-- `ScheduleGenerator::new` (`#[new]`, `schedule.rs` lines 976–1141).
Both the `PyResult` error on an invalid interval and the `unwrap` panics
(booking or truck terminals absent from `terminal_data`) are `none`. -/
def new (terminal_data : List (String × (Time × Time)))
    (truck_data : List (String × PyTruckData))
    (booking_data : List PyBooking)
    (planning_period : Time × Time) : Option ScheduleGenerator := do
  let planning ← intervalOrError planning_period.1 planning_period.2
  let planning_chain := IntervalWithDataChain.from_interval planning
  let (terminal_mapper1, terminal_open_intervals) ← terminal_data.foldlM
    terminalLoopStep
    ((CounterMapper.new, ([] : List (Terminal × IntervalWithDataChain Unit))))
  let (truck_mapper1, terminal_mapper2, trucks, terminals0) := truck_data.foldl
    truckLoopStep
    ((CounterMapper.new, terminal_mapper1, ([] : List Truck), ([] : List Terminal)))
  let st ← booking_data.foldlM
    (bookingLoopStep terminal_open_intervals planning_chain)
    { terminal_mapper := terminal_mapper2, cargo_mapper := CounterMapper.new,
      pickup_times := [], dropoff_times := [], cargo_booking_info := [],
      cargo_by_terminals := [], terminals := terminals0 }
  let truck_data_final ← truck_data.mapM (fun p => do
    let tidx ← alGet truck_mapper1.reverse_map p.1
    let sidx ← alGet st.terminal_mapper.reverse_map p.2.starting_terminal
    let chain ← alGet terminal_open_intervals ⟨sidx⟩
    let first ← chain.intervals.head?
    pure (((⟨tidx⟩ : Truck),
      (⟨⟨sidx⟩, first.start_time, p.2.max_weight_kg, p.2.max_teu⟩ : TruckData))))
  pure { driving_times_cache := fun _ _ => none
         cargo_by_terminals := st.cargo_by_terminals
         pickup_times := st.pickup_times
         dropoff_times := st.dropoff_times
         cargo_booking_info := st.cargo_booking_info
         terminals := st.terminals
         trucks := trucks
         truck_data := truck_data_final
         planning_period := planning
         terminal_mapper := st.terminal_mapper
         cargo_mapper := st.cargo_mapper
         truck_mapper := truck_mapper1 }

/-- `ScheduleGenerator::get_terminal_ids`: map the active terminal set back
to external ids (the source `unwrap`s; for a constructed generator the
lookup never fails, so `filterMap` agrees with it). -/
def getTerminalIds (G : ScheduleGenerator) : List String :=
  G.terminals.filterMap (fun t => alGet G.terminal_mapper.map t.id)

/-- `ScheduleGenerator::set_driving_times`: rebuild the driving-times cache
from a row-major matrix; `assert!(*time >= 0)` failures and the `unwrap`s
on unknown terminal ids are `none`. -/
def setDrivingTimes (G : ScheduleGenerator) (terminal_id_order : List String)
    (driving_times : List (String × List Int)) : Option ScheduleGenerator := do
  let entries ← driving_times.foldlM
    (fun acc p =>
      (p.2.enum).foldlM
        (fun acc2 q => do
          guard (0 ≤ q.2)
          let fidx ← alGet G.terminal_mapper.reverse_map p.1
          let to_id ← terminal_id_order[q.1]?
          let tidx ← alGet G.terminal_mapper.reverse_map to_id
          pure (alUpsert acc2 (((⟨fidx⟩ : Terminal), (⟨tidx⟩ : Terminal))) q.2))
        acc)
    ([] : List ((Terminal × Terminal) × TimeDelta))
  pure { G with driving_times_cache := fun a b => alGet entries (a, b) }

end ScheduleGenerator

/-- The effective pickup chain of a booking, written with external keys:
the intersection (in the source's fold order) of the `from`-terminal
opening chain, the pickup window and the planning period — the quantity
the booking loop tests for emptiness. -/
def effectivePickupChain (terminal_data : List (String × (Time × Time)))
    (planning : IntervalWithData Unit) (b : PyBooking) :
    Option (IntervalWithDataChain Unit) := do
  let oc ← alGet terminal_data b.from_terminal
  let open_interval ← intervalOrError oc.1 oc.2
  let pickup_window ← intervalOrError b.pickup_open_time b.pickup_close_time
  pure (intersectAll
    [IntervalWithDataChain.from_interval open_interval,
     IntervalWithDataChain.from_interval pickup_window,
     IntervalWithDataChain.from_interval planning])

/-- The effective dropoff chain of a booking, with external keys. -/
def effectiveDropoffChain (terminal_data : List (String × (Time × Time)))
    (planning : IntervalWithData Unit) (b : PyBooking) :
    Option (IntervalWithDataChain Unit) := do
  let oc ← alGet terminal_data b.to_terminal
  let open_interval ← intervalOrError oc.1 oc.2
  let dropoff_window ← intervalOrError b.dropoff_open_time b.dropoff_close_time
  pure (intersectAll
    [IntervalWithDataChain.from_interval open_interval,
     IntervalWithDataChain.from_interval dropoff_window,
     IntervalWithDataChain.from_interval planning])

/-- A booking survives the effective-window pruning of the construction:
both effective chains exist and are non-empty. -/
def bookingKept (terminal_data : List (String × (Time × Time)))
    (planning : IntervalWithData Unit) (b : PyBooking) : Bool :=
  match effectivePickupChain terminal_data planning b,
      effectiveDropoffChain terminal_data planning b with
  | some p, some d => !p.is_empty && !d.is_empty
  | _, _ => false

/-- Sum of driving-time matrix entries over the consecutive legs of a
terminal sequence starting from `prev` (the initial leg included);
`none` when some leg's entry is unavailable. -/
def legsSumTerms (cache : Terminal → Terminal → Option TimeDelta)
    (prev : Terminal) : List Terminal → Option TimeDelta
  | [] => some 0
  | t :: rest => do
    let d ← getCacheDrivingTime cache prev t
    let r ← legsSumTerms cache t rest
    pure (d + r)

/-- Invariant (I7)/(P7): for every truck, the cached driving time equals
the sum of driving times along its checkpoint sequence including the
initial leg from the starting terminal. -/
def drivingTimesInv (G : ScheduleGenerator) (S : Schedule) : Prop :=
  ∀ truck cps td, alGet S.truck_checkpoints truck = some cps →
    alGet G.truck_data truck = some td →
    alGet S.truck_driving_times truck =
      legsSumTerms G.driving_times_cache td.starting_terminal
        (cps.map (·.terminal))

/-- Invariant (I1): every truck's checkpoint times are strictly
increasing (needed to locate insertions next to the gap neighbours). -/
def sortedTimesInv (S : Schedule) : Prop :=
  ∀ truck cps, alGet S.truck_checkpoints truck = some cps →
    List.Chain' (fun a b => a.time < b.time) cps

/-- Replace only the `time` of checkpoint `i` (used to state the corrected
add-delivery/remove-delivery round-trip law). -/
def setCheckpointTime (cps : List Checkpoint) (i : Nat) (t : Time) :
    List Checkpoint :=
  match cps[i]? with
  | some cp => cps.set i { cp with time := t }
  | none => cps

/-- The mutation-invisible part of a checkpoint (everything except the
`available_*` capacities). -/
def cpShape (cp : Checkpoint) : Time × Terminal × List Cargo × List Cargo :=
  (cp.time, cp.terminal, cp.pickup_cargo, cp.dropoff_cargo)

/-! Concrete instances used by counterexamples and witnesses. -/

/-- Concrete terminal 0. -/
def tA : Terminal := ⟨0⟩

/-- Concrete terminal 1. -/
def tB : Terminal := ⟨1⟩

/-- Concrete terminal 2. -/
def tC : Terminal := ⟨2⟩

/-- Concrete truck 0. -/
def truck0 : Truck := ⟨0⟩

/-- Concrete cargo 0. -/
def cargo0 : Cargo := ⟨0⟩

/-- A small generator: one truck starting at `tB`, one cargo deliverable
from `tA` to `tB` with wide-open windows, all driving times 50. -/
def G3 : ScheduleGenerator :=
  { driving_times_cache := fun _ _ => some 50
    cargo_by_terminals := [((tA, tB), [cargo0])]
    pickup_times := [(cargo0, ⟨[⟨0, 1000, ()⟩]⟩)]
    dropoff_times := [(cargo0, ⟨[⟨0, 1000, ()⟩]⟩)]
    cargo_booking_info := [(cargo0, ⟨tA, tB, 10, 1⟩)]
    terminals := [tA, tB]
    trucks := [truck0]
    truck_data := [(truck0, ⟨tB, 0, 100, 10⟩)]
    planning_period := ⟨0, 1000, ()⟩
    terminal_mapper := CounterMapper.new
    cargo_mapper := CounterMapper.new
    truck_mapper := CounterMapper.new }

/-- A schedule for `G3`: the truck visits `tA` at 100 and `tB` at 500 with
nothing scheduled. -/
def S3 : Schedule :=
  ⟨[(truck0, [⟨100, tA, [], [], 10, 100⟩, ⟨500, tB, [], [], 10, 100⟩])],
   [], [(truck0, 100)]⟩

/-- A small generator with all driving times 10 and one truck at `tA`. -/
def G4 : ScheduleGenerator :=
  { driving_times_cache := fun _ _ => some 10
    cargo_by_terminals := []
    pickup_times := []
    dropoff_times := []
    cargo_booking_info := []
    terminals := [tA, tB, tC]
    trucks := [truck0]
    truck_data := [(truck0, ⟨tA, 0, 100, 10⟩)]
    planning_period := ⟨0, 1000, ()⟩
    terminal_mapper := CounterMapper.new
    cargo_mapper := CounterMapper.new
    truck_mapper := CounterMapper.new }

/-- An arbitrary bundle of mutation draws. -/
def choice0 : MutationChoice := ⟨⟨0⟩, 0, 0, ⟨0⟩, 0, ⟨0⟩, 0, 0, 0, 0⟩

/-- Concrete `terminal_data`: terminals `A` and `B`, both open `[0, 10)`. -/
def tdC8 : List (String × (Time × Time)) := [("A", (0, 10)), ("B", (0, 10))]

/-- Concrete `truck_data`: a single truck starting at `A`. -/
def trC8 : List (String × PyTruckData) := [("T", ⟨"A", 100, 10⟩)]

/-- Well-formedness of a `CounterMapper`: all indices are below the
counter and `reverse_map` entries are mirrored in `map` (holds for the
empty mapper and is preserved by `add_or_find`). -/
def CounterMapper.WF (m : CounterMapper) : Prop :=
  (∀ p ∈ m.map, p.1 < m.counter) ∧
  (∀ p ∈ m.reverse_map, p.2 < m.counter) ∧
  (∀ s i, alGet m.reverse_map s = some i → alGet m.map i = some s)

/-- `m'` extends `m`: the counter grew and every established binding (in
both directions) is preserved. -/
def mapperExtends (m m' : CounterMapper) : Prop :=
  m.counter ≤ m'.counter ∧
  (∀ i s, alGet m.map i = some s → alGet m'.map i = some s) ∧
  (∀ s i, alGet m.reverse_map s = some i → alGet m'.reverse_map s = some i)

/-- Every binding of `m` is either an original binding of `m1` or uses an
index at or above `m1`'s counter (so it cannot collide with the artifacts
built while `m1` was current). -/
def mapperFreshAbove (m1 m : CounterMapper) : Prop :=
  ∀ s i, alGet m.reverse_map s = some i →
    alGet m1.reverse_map s = some i ∨ m1.counter ≤ i

/-- Coherence of the terminal-loop artifacts: every interned terminal's
index points (through `terminal_open_intervals`) at the opening chain of
its `terminal_data` entry, and all recorded indices are below the
mapper's counter. -/
def openIntervalsCoherent (terminal_data : List (String × (Time × Time)))
    (m : CounterMapper)
    (toi : List (Terminal × IntervalWithDataChain Unit)) : Prop :=
  (∀ s i, alGet m.reverse_map s = some i →
    ∃ o c iv, alGet terminal_data s = some (o, c) ∧
      intervalOrError o c = some iv ∧
      alGet toi ⟨i⟩ = some (IntervalWithDataChain.from_interval iv)) ∧
  (∀ p ∈ toi, p.1.id < m.counter)

/-! ## Helper lemmas -/

/-- A cache hit is always non-negative (diagonal zero, or guarded by
`assert!(out >= 0)`). -/
theorem getCacheDrivingTime_nonneg (cache : Terminal → Terminal → Option TimeDelta)
    (x y : Terminal) (d : TimeDelta) (h : getCacheDrivingTime cache x y = some d) :
    0 ≤ d := by
  unfold getCacheDrivingTime at h
  split at h
  · cases h; rfl
  · split at h
    · split at h
      · cases h; assumption
      · cases h
    · cases h

/-- `ScheduleGenerator::get_driving_time` results are non-negative. -/
theorem getDrivingTime_nonneg (G : ScheduleGenerator) (a b : Option Terminal)
    (truck : Truck) (d : TimeDelta)
    (h : G.getDrivingTime a b truck = some d) : 0 ≤ d := by
  unfold ScheduleGenerator.getDrivingTime at h
  cases a with
  | some f =>
    cases b with
    | some t =>
      simp only [Option.some_bind] at h
      exact getCacheDrivingTime_nonneg _ _ _ _ h
    | none => simp only [Option.some_bind] at h; cases h; rfl
  | none =>
    cases hf : (alGet G.truck_data truck).map (·.starting_terminal) with
    | none => rw [hf] at h; cases h
    | some f =>
      rw [hf] at h
      cases b with
      | some t =>
        simp only [Option.some_bind] at h
        exact getCacheDrivingTime_nonneg _ _ _ _ h
      | none => simp only [Option.some_bind] at h; cases h; rfl

/-- A successful inner `for` loop of `get_schedule_neighbour` means some
attempt of the chosen operator succeeded. -/
theorem tryAttempts_some {G : ScheduleGenerator} {S : Schedule} {a : Nat}
    {choices : Nat → MutationChoice} {n : Nat} {s : Schedule}
    (h : G.tryAttempts S a choices n = some s) :
    ∃ t, G.attemptAction S a (choices t) = some s := by
  induction n with
  | zero => exact absurd h (by simp [ScheduleGenerator.tryAttempts])
  | succ n ih =>
    rw [ScheduleGenerator.tryAttempts] at h
    cases hm : G.attemptAction S a (choices n) with
    | some s' =>
      rw [hm] at h
      cases h
      exact ⟨n, hm⟩
    | none =>
      rw [hm] at h
      exact ih h

/-! ## Claim theorems -/

/-- C1 (code bug): `intersect` does NOT produce the set of points present
in both chains.  For the valid sorted chains `a = [[0,1), [2,3)]` and
`b = [[2,3), [4,5)]` the lock-step loop pairs `[0,1)` with `[2,3)` and
`[2,3)` with `[4,5)`, finds no overlap in either pair, and returns the
empty chain — yet `t = 2` lies in an interval of `a` and in an interval
of `b`, so the claimed iff (and the function's own doc comment) fail. -/
theorem c1_intersect_drops_common_point :
    chainSortedDisjoint (⟨[⟨0, 1, ()⟩, ⟨2, 3, ()⟩]⟩ : IntervalWithDataChain Unit) ∧
    chainSortedDisjoint (⟨[⟨2, 3, ()⟩, ⟨4, 5, ()⟩]⟩ : IntervalWithDataChain Unit) ∧
    memChain 2 (⟨[⟨0, 1, ()⟩, ⟨2, 3, ()⟩]⟩ : IntervalWithDataChain Unit) ∧
    memChain 2 (⟨[⟨2, 3, ()⟩, ⟨4, 5, ()⟩]⟩ : IntervalWithDataChain Unit) ∧
    ((⟨[⟨0, 1, ()⟩, ⟨2, 3, ()⟩]⟩ : IntervalWithDataChain Unit).intersect
      (⟨[⟨2, 3, ()⟩, ⟨4, 5, ()⟩]⟩ : IntervalWithDataChain Unit)).intervals = [] := by
  decide

/-- C5 (code bug): `contained_in` checks only the first interval of the
chain.  For the valid sorted chain `[[0,1), [5,100)]` and the bounding
interval `[0,10)` it returns `true`, although the element `[5,100)` is
not inside `[0,10)`. -/
theorem c5_contained_in_checks_only_first :
    chainSortedDisjoint (⟨[⟨0, 1, ()⟩, ⟨5, 100, ()⟩]⟩ : IntervalWithDataChain Unit) ∧
    (⟨[⟨0, 1, ()⟩, ⟨5, 100, ()⟩]⟩ : IntervalWithDataChain Unit).contained_in
      (⟨0, 10, ()⟩ : IntervalWithData Unit) = true ∧
    ¬ (∀ iv ∈ (⟨[⟨0, 1, ()⟩, ⟨5, 100, ()⟩]⟩ :
        IntervalWithDataChain Unit).intervals,
      (0 : Time) ≤ iv.start_time ∧ iv.end_time ≤ 10) := by
  decide

/-- C6 (code bug): `try_add` does not fail on every overlap.  Adding
`[5,20)` to the valid chain `[[0,10)]` finds no interval starting at or
after 20, so the source pushes `[5,20)` at the end without any overlap
check: it returns `true` and leaves the chain overlapping, although the
new interval overlaps the existing `[0,10)`. -/
theorem c6_try_add_accepts_overlap :
    chainSortedDisjoint (⟨[⟨0, 10, ()⟩]⟩ : IntervalWithDataChain Unit) ∧
    (∃ iv ∈ (⟨[⟨0, 10, ()⟩]⟩ : IntervalWithDataChain Unit).intervals,
      iv.start_time < 20 ∧ 5 < iv.end_time) ∧
    ((⟨[⟨0, 10, ()⟩]⟩ : IntervalWithDataChain Unit).try_add ⟨5, 20, ()⟩).1 = true ∧
    ¬ chainSortedDisjoint
      ((⟨[⟨0, 10, ()⟩]⟩ : IntervalWithDataChain Unit).try_add ⟨5, 20, ()⟩).2 := by
  decide

/-- C7 (code bug): `gaps` is not the complement of `chain ∩ within` inside
`within`.  For the chain `[[0,5)]` and `within = [2,10)` the loop skips
the interval `[0,5)` (its start is `≤ previous_end_time`) WITHOUT
advancing `previous_end_time`, and then emits `[2,10)` — so `t = 3`,
which lies in the chain and in `within`, wrongly appears in the output. -/
theorem c7_gaps_covers_chain_point :
    chainSortedDisjoint (⟨[⟨0, 5, ()⟩]⟩ : IntervalWithDataChain Unit) ∧
    memChain 3 (⟨[⟨0, 5, ()⟩]⟩ : IntervalWithDataChain Unit) ∧
    memInterval 3 (⟨2, 10, ()⟩ : IntervalWithData Unit) ∧
    memChain 3 ((⟨[⟨0, 5, ()⟩]⟩ : IntervalWithDataChain Unit).gaps
      (⟨2, 10, ()⟩ : IntervalWithData Unit)) := by
  decide

/-- C9 (confirmed): `get_driving_time(X, X)` returns 0 before consulting
the cached matrix, so two caches that agree off the diagonal produce
identical driving times everywhere — any diagonal entry supplied through
`set_driving_times` is ignored by every computation (all of which read
driving times through `getCacheDrivingTime`). -/
theorem c9_diagonal_ignored
    (cache1 cache2 : Terminal → Terminal → Option TimeDelta)
    (h : ∀ a b, a ≠ b → cache1 a b = cache2 a b) :
    (∀ X, getCacheDrivingTime cache1 X X = some 0) ∧
    (∀ a b, getCacheDrivingTime cache1 a b = getCacheDrivingTime cache2 a b) := by
  constructor
  · intro X
    simp [getCacheDrivingTime]
  · intro a b
    by_cases hab : a = b
    · subst hab; simp [getCacheDrivingTime]
    · simp only [getCacheDrivingTime, if_neg hab, h a b hab]

/-- Witness for C9 at two concrete caches differing only on the diagonal. -/
theorem c9_diagonal_ignored_witness :
    (∀ X, getCacheDrivingTime (fun _ _ => some 5) X X = some 0) ∧
    (∀ a b, getCacheDrivingTime (fun _ _ => some 5) a b =
      getCacheDrivingTime (fun a b => if a = b then some 99 else some 5) a b) :=
  c9_diagonal_ignored _ _ (fun _ _ hab => (if_neg hab).symm)

/-- C10 (confirmed): the neighbour loop returns only when some operator
attempt succeeds, and with `num_tries_per_action = 0` every iteration
draws an operator and performs zero attempts, so the loop never returns —
for every iteration budget, every RNG draw sequence and every schedule. -/
theorem c10_zero_tries_never_returns :
    (∀ (G : ScheduleGenerator) (S : Schedule) (acts : Nat → Nat)
      (choices : Nat → Nat → MutationChoice) (fuel : Nat),
      G.getScheduleNeighbourFuel S 0 acts choices fuel = none) ∧
    (∀ (G : ScheduleGenerator) (S : Schedule) (n : Nat) (acts : Nat → Nat)
      (choices : Nat → Nat → MutationChoice) (fuel : Nat) (s : Schedule),
      G.getScheduleNeighbourFuel S n acts choices fuel = some s →
      ∃ k t, G.attemptAction S (acts k % 4) (choices k t) = some s) := by
  constructor
  · intro G S acts choices fuel
    induction fuel with
    | zero => rfl
    | succ fuel ih =>
      rw [ScheduleGenerator.getScheduleNeighbourFuel]
      simpa [ScheduleGenerator.tryAttempts] using ih
  · intro G S n acts choices fuel s h
    induction fuel with
    | zero => cases h
    | succ fuel ih =>
      rw [ScheduleGenerator.getScheduleNeighbourFuel] at h
      cases hm : G.tryAttempts S (acts fuel % 4) (choices fuel) n with
      | some s' =>
        rw [hm] at h
        cases h
        obtain ⟨t, ht⟩ := tryAttempts_some hm
        exact ⟨fuel, t, ht⟩
      | none =>
        rw [hm] at h
        exact ih h

/-- Witness for C10: a concrete run with zero tries and budget 5 does not
return. -/
theorem c10_zero_tries_never_returns_witness :
    G4.getScheduleNeighbourFuel (G4.emptySchedule) 0 (fun _ => 0)
      (fun _ _ => choice0) 5 = none :=
  c10_zero_tries_never_returns.1 G4 G4.emptySchedule (fun _ => 0)
    (fun _ _ => choice0) 5

/-- C4 counterexample: the driving-gap computation is NOT total.  With all
matrix entries 10 and a next checkpoint at time 5, the interval
`[prev_t + d1, next_t − d2) = [10, −5)` is non-positive, so the claim
requires a graceful `none`; instead
`next_time.checked_add_signed(-driving_time2).unwrap()` panics
(`checked_add_signed` returns `None` because `5 − 10 < 0`).  In the
embedding the outer `none` is exactly the panicking run, while a graceful
`None` return would be `some none`. -/
theorem c4_driving_gap_panics :
    G4.getDrivingTimeConstraints truck0
      (some ⟨0, tA, [], [], 10, 100⟩) (some ⟨5, tB, [], [], 10, 100⟩) tC
      = none := by
  decide

/-- C4 amended: the driving-gap computation yields
`[prev_t + d1, next_t − d2)` and returns a graceful `none` exactly when
that interval is non-positive, PROVIDED `prev_t + d1` does not overflow
`u64` and `d2 ≤ next_t`; outside those bounds the source's `unwrap`s
panic (`IntervalWithData.new e l ()` is `none` exactly when `l ≤ e`,
i.e. when the interval is non-positive). -/
theorem c4_driving_gap_amended (G : ScheduleGenerator) (truck : Truck)
    (prev_checkpoint next_checkpoint : Option Checkpoint)
    (new_terminal : Terminal) (d1 d2 : TimeDelta)
    (h1 : G.getDrivingTime (Option.map (·.terminal) prev_checkpoint)
      (some new_terminal) truck = some d1)
    (h2 : G.getDrivingTime (some new_terminal)
      (Option.map (·.terminal) next_checkpoint) truck = some d2)
    (hov : (((Option.map (·.time) prev_checkpoint).getD
      G.planning_period.start_time : Nat) : Int) + d1 ≤ (timeMax : Int))
    (hnt : ((Option.map (·.time) next_checkpoint).getD
      G.planning_period.end_time) ≤ timeMax)
    (hd2 : d2 ≤ (((Option.map (·.time) next_checkpoint).getD
      G.planning_period.end_time : Nat) : Int)) :
    G.getDrivingTimeConstraints truck prev_checkpoint next_checkpoint
      new_terminal =
      some (IntervalWithData.new
        ((((Option.map (·.time) prev_checkpoint).getD
          G.planning_period.start_time : Nat) : Int) + d1).toNat
        ((((Option.map (·.time) next_checkpoint).getD
          G.planning_period.end_time : Nat) : Int) - d2).toNat ()) := by
  have hd1nn : (0 : Int) ≤ d1 := getDrivingTime_nonneg _ _ _ _ _ h1
  have hd2nn : (0 : Int) ≤ d2 := getDrivingTime_nonneg _ _ _ _ _ h2
  have e1 : checkedAddSigned
      ((Option.map (·.time) prev_checkpoint).getD G.planning_period.start_time)
      d1 = some ((((Option.map (·.time) prev_checkpoint).getD
        G.planning_period.start_time : Nat) : Int) + d1).toNat := by
    unfold checkedAddSigned
    rw [if_pos ⟨add_nonneg (Int.natCast_nonneg _) hd1nn, hov⟩]
  have e2 : checkedAddSigned
      ((Option.map (·.time) next_checkpoint).getD G.planning_period.end_time)
      (-d2) = some ((((Option.map (·.time) next_checkpoint).getD
        G.planning_period.end_time : Nat) : Int) - d2).toNat := by
    unfold checkedAddSigned
    rw [← sub_eq_add_neg]
    rw [if_pos ⟨sub_nonneg.mpr hd2, le_trans (sub_le_self _ hd2nn)
      (Int.ofNat_le.mpr hnt)⟩]
  unfold ScheduleGenerator.getDrivingTimeConstraints
  simp only [Option.bind_eq_bind, h1, h2, Option.some_bind, e1, e2,
    Option.pure_def]

/-- Witness for C4 amended at a concrete generator: both driving times 10,
gap `[0, 500)`, result `[10, 490)`. -/
theorem c4_driving_gap_amended_witness :
    G4.getDrivingTimeConstraints truck0
      (some ⟨0, tA, [], [], 10, 100⟩) (some ⟨500, tB, [], [], 10, 100⟩) tC
      = some (some ⟨10, 490, ()⟩) := by
  rw [c4_driving_gap_amended G4 truck0
    (some ⟨0, tA, [], [], 10, 100⟩) (some ⟨500, tB, [], [], 10, 100⟩) tC 10 10
    (by decide) (by decide) (by decide) (by decide) (by decide)]
  decide

theorem alGet_cons {K V : Type} [DecidableEq K] (p : K × V) (l : List (K × V))
    (k : K) : alGet (p :: l) k = if p.1 = k then some p.2 else alGet l k := by
  by_cases h : p.1 = k
  · simp [alGet, List.find?_cons_of_pos, h]
  · simp [alGet, List.find?_cons_of_neg, h]

theorem alGet_nil {K V : Type} [DecidableEq K] (k : K) :
    alGet ([] : List (K × V)) k = none := rfl

theorem alGet_append {K V : Type} [DecidableEq K] (l1 l2 : List (K × V))
    (k : K) : alGet (l1 ++ l2) k =
      ((alGet l1 k).orElse (fun _ => alGet l2 k)) := by
  induction l1 with
  | nil => simp [alGet_nil]
  | cons p rest ih =>
    rw [List.cons_append, alGet_cons, alGet_cons]
    by_cases h : p.1 = k
    · simp [h]
    · simp [h, ih]

theorem alGet_append_left {K V : Type} [DecidableEq K] {l1 : List (K × V)}
    (l2 : List (K × V)) {k : K} {v : V} (h : alGet l1 k = some v) :
    alGet (l1 ++ l2) k = some v := by
  rw [alGet_append, h]; rfl

theorem alGet_append_right {K V : Type} [DecidableEq K] {l1 : List (K × V)}
    (l2 : List (K × V)) {k : K} (h : alGet l1 k = none) :
    alGet (l1 ++ l2) k = alGet l2 k := by
  rw [alGet_append, h]; rfl

theorem alGet_eq_none_iff {K V : Type} [DecidableEq K] (l : List (K × V))
    (k : K) : alGet l k = none ↔ ∀ p ∈ l, p.1 ≠ k := by
  induction l with
  | nil => simp [alGet_nil]
  | cons p rest ih =>
    rw [alGet_cons]
    by_cases h : p.1 = k
    · simp [h]
    · simp [h, ih]

theorem counterMapper_new_wf : CounterMapper.WF CounterMapper.new := by
  refine ⟨?_, ?_, ?_⟩ <;> simp [CounterMapper.new, alGet_nil]

theorem addOrFind_counter_le (m : CounterMapper) (x : String) :
    m.counter ≤ (m.addOrFind x).2.counter := by
  unfold CounterMapper.addOrFind
  cases alGet m.reverse_map x <;> simp

theorem addOrFind_extends (m : CounterMapper) (x : String) :
    mapperExtends m (m.addOrFind x).2 := by
  refine ⟨addOrFind_counter_le m x, ?_, ?_⟩ <;>
  · intro a b h
    unfold CounterMapper.addOrFind
    cases hf : alGet m.reverse_map x
    · exact alGet_append_left _ h
    · exact h

theorem addOrFind_wf {m : CounterMapper} (x : String) (h : m.WF) :
    (m.addOrFind x).2.WF := by
  obtain ⟨hm, hr, hmir⟩ := h
  unfold CounterMapper.addOrFind
  cases hf : alGet m.reverse_map x with
  | some i => exact ⟨hm, hr, hmir⟩
  | none =>
    have hmapnone : alGet m.map m.counter = none := by
      rw [alGet_eq_none_iff]
      intro p hp
      exact Nat.ne_of_lt (hm p hp)
    refine ⟨?_, ?_, ?_⟩
    · intro p hp
      rcases List.mem_append.mp hp with hp | hp
      · exact Nat.lt_succ_of_lt (hm p hp)
      · simp at hp; simp [hp]
    · intro p hp
      rcases List.mem_append.mp hp with hp | hp
      · exact Nat.lt_succ_of_lt (hr p hp)
      · simp at hp; simp [hp]
    · intro s i hs
      cases hold : alGet m.reverse_map s with
      | some j =>
        have hs' : some j = some i := by
          rw [alGet_append, hold] at hs; exact hs
        cases hs'
        exact alGet_append_left _ (hmir s _ hold)
      | none =>
        have hs' : alGet [(x, m.counter)] s = some i := by
          rw [alGet_append, hold] at hs; exact hs
        rw [alGet_cons, alGet_nil] at hs'
        split at hs'
        · cases hs'
          rw [alGet_append_right _ hmapnone, alGet_cons]
          rename_i hxs
          simp only at hxs
          simp [hxs]
        · cases hs'

theorem addOrFind_maps_self {m : CounterMapper} (x : String) (h : m.WF) :
    alGet (m.addOrFind x).2.map (m.addOrFind x).1 = some x := by
  unfold CounterMapper.addOrFind
  cases hf : alGet m.reverse_map x with
  | some i => exact h.2.2 x i hf
  | none =>
    have hmapnone : alGet m.map m.counter = none := by
      rw [alGet_eq_none_iff]
      intro p hp
      exact Nat.ne_of_lt (h.1 p hp)
    simp only
    rw [alGet_append_right _ hmapnone, alGet_cons]
    simp

theorem addOrFind_freshAbove {m1 m : CounterMapper} (x : String)
    (hc : m1.counter ≤ m.counter) (h : mapperFreshAbove m1 m) :
    mapperFreshAbove m1 (m.addOrFind x).2 := by
  intro s i hs
  unfold CounterMapper.addOrFind at hs
  cases hf : alGet m.reverse_map x with
  | some j => rw [hf] at hs; exact h s i hs
  | none =>
    rw [hf] at hs
    simp only at hs
    cases hold : alGet m.reverse_map s with
    | some j =>
      have hs' : some j = some i := by
        rw [alGet_append, hold] at hs; exact hs
      cases hs'
      exact h s _ hold
    | none =>
      have hs' : alGet [(x, m.counter)] s = some i := by
        rw [alGet_append, hold] at hs; exact hs
      rw [alGet_cons, alGet_nil] at hs'
      split at hs'
      · cases hs'
        exact Or.inr hc
      · cases hs'

theorem terminalId_inj {a b : Terminal} (h : a.id = b.id) : a = b := by
  cases a; cases b; cases h; rfl

theorem cargoId_inj {a b : Cargo} (h : a.id = b.id) : a = b := by
  cases a; cases b; cases h; rfl

theorem truckId_inj {a b : Truck} (h : a.id = b.id) : a = b := by
  cases a; cases b; cases h; rfl

theorem mem_insertTerminal (x t : Terminal) (l : List Terminal) :
    x ∈ insertTerminal t l ↔ x = t ∨ x ∈ l := by
  induction l with
  | nil => simp [insertTerminal]
  | cons y ys ih =>
    unfold insertTerminal
    split
    · simp [or_comm, or_assoc, or_left_comm]
    · split
      · rename_i hlt heq
        rw [terminalId_inj heq]
        simp only [List.mem_cons]
        constructor
        · intro hx
          rcases hx with hx | hx
          · exact Or.inl hx
          · exact Or.inr (Or.inr hx)
        · rintro (hx | hx | hx)
          · exact Or.inl hx
          · exact Or.inl hx
          · exact Or.inr hx
      · simp only [List.mem_cons, ih]
        tauto

theorem alGet_mem {K V : Type} [DecidableEq K] {l : List (K × V)} {k : K}
    {v : V} (h : alGet l k = some v) : (k, v) ∈ l := by
  induction l with
  | nil => cases h
  | cons p rest ih =>
    rw [alGet_cons] at h
    split at h
    · cases h
      rename_i hk
      rw [← hk]
      exact List.mem_cons_self _ _
    · exact List.mem_cons_of_mem _ (ih h)

theorem alGet_of_mem_nodup {K V : Type} [DecidableEq K] {l : List (K × V)}
    {k : K} {v : V} (h : (k, v) ∈ l) (hnd : (l.map Prod.fst).Nodup) :
    alGet l k = some v := by
  induction l with
  | nil => cases h
  | cons p rest ih =>
    rw [List.map_cons, List.nodup_cons] at hnd
    rw [alGet_cons]
    rcases List.mem_cons.mp h with h | h
    · subst h; simp
    · split
      · rename_i hk
        exact absurd (hk ▸ List.mem_map_of_mem Prod.fst h) hnd.1
      · exact ih h hnd.2

theorem mem_alInsert {K V : Type} (key : K → Nat) {p : K × V} {k : K} {v : V}
    {l : List (K × V)} (h : p ∈ alInsert key k v l) : p = (k, v) ∨ p ∈ l := by
  induction l with
  | nil => simpa [alInsert] using h
  | cons q rest ih =>
    unfold alInsert at h
    split at h
    · rcases List.mem_cons.mp h with h | h
      · exact Or.inl h
      · exact Or.inr h
    · split at h
      · rcases List.mem_cons.mp h with h | h
        · exact Or.inl h
        · exact Or.inr (List.mem_cons_of_mem _ h)
      · rcases List.mem_cons.mp h with h | h
        · exact Or.inr (h ▸ List.mem_cons_self _ _)
        · rcases ih h with h | h
          · exact Or.inl h
          · exact Or.inr (List.mem_cons_of_mem _ h)

theorem alGet_alInsert_self {K V : Type} [DecidableEq K] (key : K → Nat)
    (l : List (K × V)) (k : K) (v : V) :
    alGet (alInsert key k v l) k = some v := by
  induction l with
  | nil => simp [alInsert, alGet_cons]
  | cons q rest ih =>
    unfold alInsert
    split
    · simp [alGet_cons]
    · split
      · simp [alGet_cons]
      · rename_i hlt heq
        rw [alGet_cons]
        split
        · rename_i hqk
          exact absurd (congrArg key hqk) (fun hc => heq hc.symm)
        · exact ih

theorem alGet_alInsert_ne {K V : Type} [DecidableEq K] (key : K → Nat)
    {l : List (K × V)} {k k' : K} {v : V} (h : key k' ≠ key k) :
    alGet (alInsert key k v l) k' = alGet l k' := by
  have hkk : k ≠ k' := fun hc => h (congrArg key hc.symm)
  induction l with
  | nil =>
    rw [alInsert, alGet_cons, alGet_nil, if_neg hkk]
  | cons q rest ih =>
    unfold alInsert
    split
    · rw [alGet_cons, if_neg hkk]
    · split
      · rename_i hlt heq
        rw [alGet_cons, if_neg hkk, alGet_cons]
        split
        · rename_i hqk
          exact absurd (congrArg key hqk) (fun hc => h (heq ▸ hc).symm)
        · rfl
      · rw [alGet_cons, alGet_cons]
        split
        · rfl
        · exact ih

theorem addOrFind_reverse_inv {m : CounterMapper} {x s : String} {i : Nat}
    (h : alGet (m.addOrFind x).2.reverse_map s = some i) :
    alGet m.reverse_map s = some i ∨
      (s = x ∧ i = m.counter ∧ alGet m.reverse_map x = none) := by
  unfold CounterMapper.addOrFind at h
  cases hf : alGet m.reverse_map x with
  | some j => rw [hf] at h; exact Or.inl h
  | none =>
    rw [hf] at h
    simp only at h
    cases hold : alGet m.reverse_map s with
    | some j =>
      have h' : some j = some i := by rw [alGet_append, hold] at h; exact h
      injection h' with hji
      subst hji
      exact Or.inl rfl
    | none =>
      have h' : alGet [(x, m.counter)] s = some i := by
        rw [alGet_append, hold] at h; exact h
      rw [alGet_cons, alGet_nil] at h'
      split at h'
      · injection h' with hci
        rename_i hxs
        simp only at hxs
        exact Or.inr ⟨hxs.symm, hci.symm, rfl⟩
      · cases h'

theorem addOrFind_cases (m : CounterMapper) (x : String) :
    (alGet m.reverse_map x = some (m.addOrFind x).1 ∧ (m.addOrFind x).2 = m) ∨
    (alGet m.reverse_map x = none ∧ (m.addOrFind x).1 = m.counter ∧
      (m.addOrFind x).2.counter = m.counter + 1) := by
  unfold CounterMapper.addOrFind
  cases hf : alGet m.reverse_map x with
  | some i => exact Or.inl ⟨rfl, rfl⟩
  | none => exact Or.inr ⟨rfl, rfl, rfl⟩

theorem terminalLoop_spec (td_all : List (String × (Time × Time)))
    (l : List (String × (Time × Time))) :
    ∀ (m : CounterMapper) (toi : List (Terminal × IntervalWithDataChain Unit))
      (m' : CounterMapper)
      (toi' : List (Terminal × IntervalWithDataChain Unit)),
    (∀ e ∈ l, alGet td_all e.1 = some e.2) →
    m.WF → openIntervalsCoherent td_all m toi →
    l.foldlM terminalLoopStep (m, toi) = some (m', toi') →
    m'.WF ∧ openIntervalsCoherent td_all m' toi' ∧ mapperExtends m m' := by
  induction l with
  | nil =>
    intro m toi m' toi' _ hwf hco hfold
    rw [List.foldlM_nil] at hfold
    cases hfold
    exact ⟨hwf, hco, le_refl _, fun _ _ h => h, fun _ _ h => h⟩
  | cons p rest ih =>
    intro m toi m' toi' hmem hwf hco hfold
    rw [List.foldlM_cons] at hfold
    cases hstep : terminalLoopStep (m, toi) p with
    | none =>
      rw [hstep] at hfold
      cases hfold
    | some st1 =>
      rw [hstep] at hfold
      simp only [Option.bind_eq_bind, Option.some_bind] at hfold
      obtain ⟨m1, toi1⟩ := st1
      -- analyze the step
      unfold terminalLoopStep at hstep
      obtain ⟨idx, m2, haf⟩ : ∃ idx m2, m.addOrFind p.1 = (idx, m2) :=
        ⟨_, _, rfl⟩
      rw [haf] at hstep
      cases hint : intervalOrError p.2.1 p.2.2 with
      | none => rw [hint] at hstep; cases hstep
      | some iv =>
        rw [hint] at hstep
        simp only [Option.bind_eq_bind, Option.some_bind, Option.pure_def,
          Option.some.injEq, Prod.mk.injEq] at hstep
        obtain ⟨hm2, htoi1⟩ := hstep
        subst hm2
        subst htoi1
        have hwf2 : m2.WF := by
          have := addOrFind_wf p.1 hwf
          rwa [haf] at this
        have hext2 : mapperExtends m m2 := by
          have := addOrFind_extends m p.1
          rwa [haf] at this
        have hcases := addOrFind_cases m p.1
        rw [haf] at hcases
        simp only at hcases
        have hco2 : openIntervalsCoherent td_all m2
            (alInsert Terminal.id ⟨idx⟩
              (IntervalWithDataChain.from_interval iv) toi) := by
          constructor
          · intro s i hs
            have hinv : alGet m.reverse_map s = some i ∨
                (s = p.1 ∧ i = m.counter ∧ alGet m.reverse_map p.1 = none) := by
              have := @addOrFind_reverse_inv m p.1 s i
              rw [haf] at this
              exact this hs
            rcases hinv with hold | ⟨hsp, hic, hfresh⟩
            · obtain ⟨o, c, iv0, htd, hio, htoi⟩ := hco.1 s i hold
              by_cases hidx : i = idx
              · subst hidx
                rcases hcases with ⟨hfound, hm2m⟩ | ⟨hfresh, hidxc, _⟩
                · -- the index was already bound: the two strings coincide
                  have hsm : alGet m.map i = some s := hwf.2.2 s i hold
                  have hpm : alGet m.map i = some p.1 := hwf.2.2 p.1 i hfound
                  have hsp : s = p.1 := by
                    rw [hsm] at hpm
                    injection hpm
                  subst hsp
                  have htd' := hmem p (List.mem_cons_self _ _)
                  rw [htd] at htd'
                  injection htd' with htd'
                  refine ⟨o, c, iv, htd, ?_, ?_⟩
                  · rw [← htd'] at hint
                    exact hint
                  · exact alGet_alInsert_self Terminal.id _ _ _
                · -- fresh index: contradicts the counter bound on `m`
                  exfalso
                  have : i < m.counter :=
                    hwf.2.1 _ (alGet_mem hold)
                  rw [hidxc] at this
                  exact lt_irrefl _ this
              · refine ⟨o, c, iv0, htd, hio, ?_⟩
                rw [alGet_alInsert_ne Terminal.id]
                · exact htoi
                · simpa using hidx
            · -- freshly interned terminal: the inserted chain is its chain
              subst hsp
              have hidxe : idx = m.counter := by
                rcases hcases with ⟨hfound, _⟩ | ⟨_, hidxc, _⟩
                · rw [hfound] at hfresh; cases hfresh
                · exact hidxc
              subst hic
              rw [← hidxe]
              refine ⟨p.2.1, p.2.2, iv, ?_, hint, ?_⟩
              · have := hmem p (List.mem_cons_self _ _)
                simpa using this
              · exact alGet_alInsert_self Terminal.id _ _ _
          · intro q hq
            rcases mem_alInsert Terminal.id hq with hq | hq
            · subst hq
              simp only
              rcases hcases with ⟨hfound, hm2m⟩ | ⟨_, hidxc, hc2⟩
              · rw [hm2m]
                exact hwf.2.1 _ (alGet_mem hfound)
              · rw [hidxc, hc2]
                exact Nat.lt_succ_self _
            · exact lt_of_lt_of_le (hco.2 q hq) hext2.1
        have hrest := ih m2 _ m' toi'
          (fun e he => hmem e (List.mem_cons_of_mem _ he)) hwf2 hco2 hfold
        refine ⟨hrest.1, hrest.2.1, ?_⟩
        exact ⟨le_trans hext2.1 hrest.2.2.1,
          fun i s h => hrest.2.2.2.1 i s (hext2.2.1 i s h),
          fun s i h => hrest.2.2.2.2 s i (hext2.2.2 s i h)⟩

theorem truckLoop_spec (truck_all : List (String × PyTruckData))
    (m1 : CounterMapper) (l : List (String × PyTruckData)) :
    ∀ (tm em : CounterMapper) (trucks : List Truck)
      (terminals : List Terminal) (tm' em' : CounterMapper)
      (trucks' : List Truck) (terminals' : List Terminal),
    (∀ e ∈ l, e ∈ truck_all) → em.WF →
    m1.counter ≤ em.counter → mapperFreshAbove m1 em →
    (∀ t ∈ terminals, ∃ s, alGet em.map t.id = some s ∧
      ∃ p ∈ truck_all, p.2.starting_terminal = s) →
    l.foldl truckLoopStep (tm, em, trucks, terminals) =
      (tm', em', trucks', terminals') →
    em'.WF ∧ m1.counter ≤ em'.counter ∧ mapperFreshAbove m1 em' ∧
    mapperExtends em em' ∧
    (∀ t ∈ terminals', ∃ s, alGet em'.map t.id = some s ∧
      ∃ p ∈ truck_all, p.2.starting_terminal = s) := by
  induction l with
  | nil =>
    intro tm em trucks terminals tm' em' trucks' terminals'
      _ hwf hcle hfresh hinv hfold
    rw [List.foldl_nil] at hfold
    injection hfold with h1 h2
    injection h2 with h2 h3
    injection h3 with h3 h4
    subst h2; subst h4
    exact ⟨hwf, hcle, hfresh, ⟨le_refl _, fun _ _ h => h, fun _ _ h => h⟩, hinv⟩
  | cons p rest ih =>
    intro tm em trucks terminals tm' em' trucks' terminals'
      hmem hwf hcle hfresh hinv hfold
    rw [List.foldl_cons] at hfold
    obtain ⟨tidx, tm1, htaf⟩ : ∃ a b, tm.addOrFind p.1 = (a, b) := ⟨_, _, rfl⟩
    obtain ⟨sidx, em1, heaf⟩ : ∃ a b,
      em.addOrFind p.2.starting_terminal = (a, b) := ⟨_, _, rfl⟩
    rw [truckLoopStep, htaf, heaf] at hfold
    simp only at hfold
    have hwf1 : em1.WF := by
      have := addOrFind_wf p.2.starting_terminal hwf
      rwa [heaf] at this
    have hext1 : mapperExtends em em1 := by
      have := addOrFind_extends em p.2.starting_terminal
      rwa [heaf] at this
    have hfresh1 : mapperFreshAbove m1 em1 := by
      have := addOrFind_freshAbove p.2.starting_terminal hcle hfresh
      rwa [heaf] at this
    have hinv1 : ∀ t ∈ insertTerminal ⟨sidx⟩ terminals,
        ∃ s, alGet em1.map t.id = some s ∧
          ∃ q ∈ truck_all, q.2.starting_terminal = s := by
      intro t ht
      rcases (mem_insertTerminal t ⟨sidx⟩ terminals).mp ht with ht | ht
      · subst ht
        refine ⟨p.2.starting_terminal, ?_,
          p, hmem p (List.mem_cons_self _ _), rfl⟩
        have := addOrFind_maps_self p.2.starting_terminal hwf
        rwa [heaf] at this
      · obtain ⟨s, hs, hq⟩ := hinv t ht
        exact ⟨s, hext1.2.1 _ _ hs, hq⟩
    have := ih tm1 em1 (insertTruck ⟨tidx⟩ trucks)
      (insertTerminal ⟨sidx⟩ terminals) tm' em' trucks' terminals'
      (fun e he => hmem e (List.mem_cons_of_mem _ he)) hwf1
      (le_trans hcle hext1.1) hfresh1 hinv1 hfold
    exact ⟨this.1, this.2.1, this.2.2.1,
      ⟨le_trans hext1.1 this.2.2.2.1.1,
        fun i s h => this.2.2.2.1.2.1 i s (hext1.2.1 i s h),
        fun s i h => this.2.2.2.1.2.2 s i (hext1.2.2 s i h)⟩,
      this.2.2.2.2⟩

theorem bookingLoop_spec (td_all : List (String × (Time × Time)))
    (truck_all : List (String × PyTruckData)) (booking_all : List PyBooking)
    (planning : IntervalWithData Unit) (m1 : CounterMapper)
    (toi : List (Terminal × IntervalWithDataChain Unit))
    (hco : openIntervalsCoherent td_all m1 toi) (l : List PyBooking) :
    ∀ (st st' : BookingLoopState),
    (∀ b ∈ l, b ∈ booking_all) →
    st.terminal_mapper.WF →
    m1.counter ≤ st.terminal_mapper.counter →
    mapperFreshAbove m1 st.terminal_mapper →
    (∀ t ∈ st.terminals, ∃ s, alGet st.terminal_mapper.map t.id = some s ∧
      ((∃ p ∈ truck_all, p.2.starting_terminal = s) ∨
       (∃ b ∈ booking_all, bookingKept td_all planning b = true ∧
         (b.from_terminal = s ∨ b.to_terminal = s)))) →
    l.foldlM
      (bookingLoopStep toi (IntervalWithDataChain.from_interval planning)) st
      = some st' →
    (∀ t ∈ st'.terminals, ∃ s, alGet st'.terminal_mapper.map t.id = some s ∧
      ((∃ p ∈ truck_all, p.2.starting_terminal = s) ∨
       (∃ b ∈ booking_all, bookingKept td_all planning b = true ∧
         (b.from_terminal = s ∨ b.to_terminal = s)))) := by
  induction l with
  | nil =>
    intro st st' _ _ _ _ hinv hfold
    rw [List.foldlM_nil] at hfold
    cases hfold
    exact hinv
  | cons b rest ih =>
    intro st st' hmem hwf hcle hfresh hinv hfold
    rw [List.foldlM_cons] at hfold
    cases hstep : bookingLoopStep toi
        (IntervalWithDataChain.from_interval planning) st b with
    | none => rw [hstep] at hfold; cases hfold
    | some st1 =>
      rw [hstep] at hfold
      simp only [Option.bind_eq_bind, Option.some_bind] at hfold
      -- dissect the step
      unfold bookingLoopStep at hstep
      obtain ⟨fidx, em1, haf1⟩ : ∃ a b',
        st.terminal_mapper.addOrFind b.from_terminal = (a, b') := ⟨_, _, rfl⟩
      rw [haf1] at hstep
      simp only at hstep
      obtain ⟨tidx, em2, haf2⟩ : ∃ a b',
        em1.addOrFind b.to_terminal = (a, b') := ⟨_, _, rfl⟩
      rw [haf2] at hstep
      simp only at hstep
      have hwf1 : em1.WF := by
        have := addOrFind_wf b.from_terminal hwf
        rwa [haf1] at this
      have hwf2 : em2.WF := by
        have := addOrFind_wf b.to_terminal hwf1
        rwa [haf2] at this
      have hext1 : mapperExtends st.terminal_mapper em1 := by
        have := addOrFind_extends st.terminal_mapper b.from_terminal
        rwa [haf1] at this
      have hext2 : mapperExtends em1 em2 := by
        have := addOrFind_extends em1 b.to_terminal
        rwa [haf2] at this
      have hcle1 : m1.counter ≤ em1.counter := le_trans hcle hext1.1
      have hcle2 : m1.counter ≤ em2.counter := le_trans hcle1 hext2.1
      have hfresh1 : mapperFreshAbove m1 em1 := by
        have := addOrFind_freshAbove b.from_terminal hcle hfresh
        rwa [haf1] at this
      have hfresh2 : mapperFreshAbove m1 em2 := by
        have := addOrFind_freshAbove b.to_terminal hcle1 hfresh1
        rwa [haf2] at this
      -- the from- and to-chains must come from loop-1 artifacts
      cases hfc : alGet toi (⟨fidx⟩ : Terminal) with
      | none => rw [hfc] at hstep; cases hstep
      | some from_chain =>
      rw [hfc] at hstep
      cases hpw : intervalOrError b.pickup_open_time b.pickup_close_time with
      | none => rw [hpw] at hstep; cases hstep
      | some pickup_window =>
      rw [hpw] at hstep
      cases htc : alGet toi (⟨tidx⟩ : Terminal) with
      | none => rw [htc] at hstep; cases hstep
      | some to_chain =>
      rw [htc] at hstep
      cases hdw : intervalOrError b.dropoff_open_time b.dropoff_close_time with
      | none => rw [hdw] at hstep; cases hstep
      | some dropoff_window =>
      rw [hdw] at hstep
      simp only [Option.bind_eq_bind, Option.some_bind] at hstep
      -- fidx and tidx are loop-1 indices
      have hfidx1 : alGet m1.reverse_map b.from_terminal = some fidx := by
        have hbound : fidx < m1.counter := hco.2 _ (alGet_mem hfc)
        rcases addOrFind_cases st.terminal_mapper b.from_terminal with
          ⟨hfound, _⟩ | ⟨_, hidxc, _⟩
        · rw [haf1] at hfound
          rcases hfresh _ _ hfound with h | h
          · exact h
          · exact absurd hbound (not_lt.mpr h)
        · rw [haf1] at hidxc
          simp only at hidxc
          rw [hidxc] at hbound
          exact absurd hbound (not_lt.mpr hcle)
      have htidx1 : alGet m1.reverse_map b.to_terminal = some tidx := by
        have hbound : tidx < m1.counter := hco.2 _ (alGet_mem htc)
        rcases addOrFind_cases em1 b.to_terminal with
          ⟨hfound, _⟩ | ⟨_, hidxc, _⟩
        · rw [haf2] at hfound
          rcases hfresh1 _ _ hfound with h | h
          · exact h
          · exact absurd hbound (not_lt.mpr h)
        · rw [haf2] at hidxc
          simp only at hidxc
          rw [hidxc] at hbound
          exact absurd hbound (not_lt.mpr hcle1)
      obtain ⟨fo, fc, fiv, hftd, hfio, hftoi⟩ := hco.1 _ _ hfidx1
      obtain ⟨to_, tc, tiv, httd, htio, httoi⟩ := hco.1 _ _ htidx1
      rw [hfc] at hftoi
      injection hftoi with hftoi
      rw [htc] at httoi
      injection httoi with httoi
      -- the external effective chains coincide with the internal ones
      have heffp : effectivePickupChain td_all planning b =
          some (intersectAll [from_chain,
            IntervalWithDataChain.from_interval pickup_window,
            IntervalWithDataChain.from_interval planning]) := by
        unfold effectivePickupChain
        rw [hftd]
        simp only [Option.bind_eq_bind, Option.some_bind]
        rw [hfio]
        simp only [Option.bind_eq_bind, Option.some_bind]
        rw [hpw]
        simp only [Option.bind_eq_bind, Option.some_bind, Option.pure_def]
        rw [hftoi]
      have heffd : effectiveDropoffChain td_all planning b =
          some (intersectAll [to_chain,
            IntervalWithDataChain.from_interval dropoff_window,
            IntervalWithDataChain.from_interval planning]) := by
        unfold effectiveDropoffChain
        rw [httd]
        simp only [Option.bind_eq_bind, Option.some_bind]
        rw [htio]
        simp only [Option.bind_eq_bind, Option.some_bind, Option.pure_def]
        rw [hdw]
        simp only [Option.bind_eq_bind, Option.some_bind, Option.pure_def]
        rw [httoi]
      -- branch on the pruning decision
      split at hstep
      · -- booking dropped: only the mapper advances
        rename_i hdropped
        injection hstep with hst1
        subst hst1
        refine ih _ st'
          (fun e he => hmem e (List.mem_cons_of_mem _ he)) hwf2 hcle2 hfresh2
          ?_ hfold
        intro t ht
        obtain ⟨s, hs, hq⟩ := hinv t ht
        exact ⟨s, hext2.2.1 _ _ (hext1.2.1 _ _ hs), hq⟩
      · -- booking kept: its endpoints become active
        rename_i hkept
        have hkeptB : bookingKept td_all planning b = true := by
          unfold bookingKept
          rw [heffp, heffd]
          simp only [Bool.or_eq_true, not_or, Bool.not_eq_true] at hkept
          simp [hkept.1, hkept.2]
        simp only [Option.pure_def, Option.some.injEq] at hstep
        subst hstep
        refine ih _ st'
          (fun e he => hmem e (List.mem_cons_of_mem _ he)) hwf2 hcle2 hfresh2
          ?_ hfold
        intro t ht
        simp only at ht
        rcases (mem_insertTerminal t ⟨tidx⟩ _).mp ht with hteq | ht
        · subst hteq
          refine ⟨b.to_terminal, ?_, Or.inr ⟨b, hmem b (List.mem_cons_self _ _),
            hkeptB, Or.inr rfl⟩⟩
          have := addOrFind_maps_self b.to_terminal hwf1
          rwa [haf2] at this
        · rcases (mem_insertTerminal t ⟨fidx⟩ _).mp ht with hteq | ht
          · subst hteq
            refine ⟨b.from_terminal, ?_, Or.inr ⟨b,
              hmem b (List.mem_cons_self _ _), hkeptB, Or.inl rfl⟩⟩
            have := addOrFind_maps_self b.from_terminal hwf
            rw [haf1] at this
            exact hext2.2.1 _ _ this
          · obtain ⟨s, hs, hq⟩ := hinv t ht
            exact ⟨s, hext2.2.1 _ _ (hext1.2.1 _ _ hs), hq⟩

/-- C8 counterexample: the active terminal set is NOT restricted to
terminals referenced by kept bookings.  With terminals `A`, `B`, one truck
starting at `A` and NO bookings at all, construction succeeds and
`get_terminal_ids` returns `["A"]` — the truck's starting terminal, which
no kept booking references (there are none), is in the active set. -/
theorem c8_terminal_ids_not_only_kept_bookings :
    ¬ ∀ G, ScheduleGenerator.new tdC8 trC8 [] (0, 1000) = some G →
      ∀ x ∈ G.getTerminalIds, ∃ b ∈ ([] : List PyBooking),
        bookingKept tdC8 G.planning_period b = true ∧
        (b.from_terminal = x ∨ b.to_terminal = x) := by
  intro h
  have hsome : (ScheduleGenerator.new tdC8 trC8 [] (0, 1000)).isSome = true := by
    decide
  cases hGv : ScheduleGenerator.new tdC8 trC8 [] (0, 1000) with
  | none => rw [hGv] at hsome; cases hsome
  | some G =>
    have hids : some G.getTerminalIds = some ["A"] := by
      have h1 := congrArg (Option.map ScheduleGenerator.getTerminalIds) hGv
      have h2 : (ScheduleGenerator.new tdC8 trC8 [] (0, 1000)).map
          ScheduleGenerator.getTerminalIds = some ["A"] := by decide
      rw [h1] at h2
      exact h2
    injection hids with hids
    obtain ⟨b, hb, _⟩ := h G hGv "A" (by rw [hids]; exact List.mem_singleton.mpr rfl)
    cases hb

/-- C8 amended: after a successful construction (with the `BTreeMap`
input's keys of `terminal_data` duplicate-free), `get_terminal_ids`
contains a terminal only if it is referenced by a booking kept after the
effective-window pruning OR it is the starting terminal of some truck;
terminals referenced only by dropped bookings (and not truck starts)
remain excluded. -/
theorem c8_active_terminals_amended
    (terminal_data : List (String × (Time × Time)))
    (truck_data : List (String × PyTruckData))
    (booking_data : List PyBooking) (pp : Time × Time)
    (G : ScheduleGenerator)
    (hnodup : (terminal_data.map Prod.fst).Nodup)
    (hG : ScheduleGenerator.new terminal_data truck_data booking_data pp
      = some G)
    (x : String) (hx : x ∈ G.getTerminalIds) :
    (∃ p ∈ truck_data, p.2.starting_terminal = x) ∨
    (∃ b ∈ booking_data,
      bookingKept terminal_data G.planning_period b = true ∧
      (b.from_terminal = x ∨ b.to_terminal = x)) := by
  unfold ScheduleGenerator.new at hG
  cases hpl : intervalOrError pp.1 pp.2 with
  | none => rw [hpl] at hG; cases hG
  | some planning =>
  rw [hpl] at hG
  simp only [Option.bind_eq_bind, Option.some_bind] at hG
  cases hfold1 : terminal_data.foldlM terminalLoopStep
      (CounterMapper.new,
        ([] : List (Terminal × IntervalWithDataChain Unit))) with
  | none => rw [hfold1] at hG; cases hG
  | some st1 =>
  rw [hfold1] at hG
  obtain ⟨m1, toi⟩ := st1
  simp only [Option.bind_eq_bind, Option.some_bind] at hG
  obtain ⟨tmk, em0, trucks0, terminals0, hfold2⟩ :
      ∃ a b c d, truck_data.foldl truckLoopStep
        (CounterMapper.new, m1, ([] : List Truck), ([] : List Terminal))
        = (a, b, c, d) := ⟨_, _, _, _, rfl⟩
  rw [hfold2] at hG
  simp only at hG
  cases hfold3 : booking_data.foldlM
      (bookingLoopStep toi (IntervalWithDataChain.from_interval planning))
      ⟨em0, CounterMapper.new, [], [], [], [], terminals0⟩ with
  | none => rw [hfold3] at hG; cases hG
  | some st =>
  rw [hfold3] at hG
  simp only [Option.bind_eq_bind, Option.some_bind] at hG
  rw [Option.bind_eq_some] at hG
  obtain ⟨tdf, _htdf, hG⟩ := hG
  simp only [Option.pure_def, Option.some.injEq] at hG
  subst hG
  -- specifications of the three loops
  have hco0 : openIntervalsCoherent terminal_data CounterMapper.new [] := by
    constructor
    · intro s i h
      rw [show CounterMapper.new.reverse_map = ([] : List (String × Nat))
        from rfl, alGet_nil] at h
      cases h
    · intro p hp
      cases hp
  have hspec1 := terminalLoop_spec terminal_data terminal_data
    CounterMapper.new [] m1 toi
    (fun e he => alGet_of_mem_nodup (by simpa using he) hnodup)
    counterMapper_new_wf hco0 hfold1
  have hspec2 := truckLoop_spec truck_data m1 truck_data
    CounterMapper.new m1 [] [] tmk em0 trucks0 terminals0
    (fun e he => he) hspec1.1 (le_refl _)
    (fun s i h => Or.inl h) (fun t ht => absurd ht (List.not_mem_nil _))
    hfold2
  have hspec3 := bookingLoop_spec terminal_data truck_data booking_data
    planning m1 toi hspec1.2.1 booking_data
    ⟨em0, CounterMapper.new, [], [], [], [], terminals0⟩ st
    (fun b hb => hb) hspec2.1 hspec2.2.1 hspec2.2.2.1
    (fun t ht => by
      obtain ⟨s, hs, hq⟩ := hspec2.2.2.2.2 t ht
      exact ⟨s, hs, Or.inl hq⟩)
    hfold3
  -- read off the conclusion
  unfold ScheduleGenerator.getTerminalIds at hx
  simp only at hx
  rw [List.mem_filterMap] at hx
  obtain ⟨t, ht, hmap⟩ := hx
  obtain ⟨s, hs, hq⟩ := hspec3 t ht
  rw [hmap] at hs
  injection hs with hs
  subst hs
  exact hq

/-- Witness for C8 amended at the concrete no-booking inputs: the terminal
"A" in the active set is a truck's starting terminal. -/
theorem c8_active_terminals_amended_witness :
    (∃ p ∈ trC8, p.2.starting_terminal = "A") ∨
    (∃ b ∈ ([] : List PyBooking),
      bookingKept tdC8 ⟨0, 1000, ()⟩ b = true ∧
      (b.from_terminal = "A" ∨ b.to_terminal = "A")) := by
  have hsome : (ScheduleGenerator.new tdC8 trC8 [] (0, 1000)).isSome = true := by
    decide
  cases hGv : ScheduleGenerator.new tdC8 trC8 [] (0, 1000) with
  | none => rw [hGv] at hsome; cases hsome
  | some G =>
    have hids : some G.getTerminalIds = some ["A"] := by
      have h1 := congrArg (Option.map ScheduleGenerator.getTerminalIds) hGv
      have h2 : (ScheduleGenerator.new tdC8 trC8 [] (0, 1000)).map
          ScheduleGenerator.getTerminalIds = some ["A"] := by decide
      rw [h1] at h2
      exact h2
    injection hids with hids
    rcases c8_active_terminals_amended tdC8 trC8 [] (0, 1000) G (by decide)
        hGv "A" (by rw [hids]; exact List.mem_singleton.mpr rfl) with
      h | ⟨b, hb, _⟩
    · exact Or.inl h
    · cases hb

theorem findIdx?_eq_some_of {α : Type} (p : α → Bool) (l : List α) (i : Nat)
    (x : α) (hx : l[i]? = some x) (hpx : p x = true)
    (hlt : ∀ m, m < i → ∀ y, l[m]? = some y → p y = false) :
    l.findIdx? p = some i := by
  induction l generalizing i with
  | nil => cases hx
  | cons a rest ih =>
    rw [List.findIdx?_cons]
    cases i with
    | zero =>
      rw [List.getElem?_cons_zero] at hx
      injection hx with hx
      subst hx
      rw [if_pos hpx]
    | succ i =>
      rw [List.getElem?_cons_succ] at hx
      have ha : p a = false := hlt 0 (Nat.succ_pos _) a List.getElem?_cons_zero
      rw [ha]
      simp only [Bool.false_eq_true, if_false]
      rw [List.findIdx?_succ]
      rw [ih i hx (fun m hm y hy =>
        hlt (m + 1) (Nat.succ_lt_succ hm) y
          (List.getElem?_cons_succ.symm ▸ hy))]
      rfl

theorem findRandomRescheduleTime_eq {G : ScheduleGenerator} {S : Schedule}
    {truck : Truck} {idx : Nat} {np nd : List Cargo} {c t : Time}
    (h : G.findRandomRescheduleTime S truck idx np nd c = some t) : t = c := by
  unfold ScheduleGenerator.findRandomRescheduleTime at h
  simp only [Option.bind_eq_bind, Option.bind_eq_some] at h
  obtain ⟨_, _, _, _, _, _, _, _, _, _, _, _, _, _, hp⟩ := h
  simp only [Option.pure_def, Option.some.injEq] at hp
  exact hp.symm

theorem availSubLoop_spec (bi : BookingInformation) :
    ∀ (n : Nat) (l : List Checkpoint) (k : Nat) (l' : List Checkpoint),
    availSubLoop bi l k n = some l' →
    l'.length = l.length ∧
    (∀ m, m < k ∨ k + n ≤ m → l'[m]? = l[m]?) ∧
    (∀ m, k ≤ m → m < k + n → ∃ cp, l[m]? = some cp ∧
      bi.weight_kg ≤ cp.available_weight_kg ∧ bi.teu ≤ cp.available_teu ∧
      l'[m]? = some { cp with
        available_weight_kg := cp.available_weight_kg - bi.weight_kg,
        available_teu := cp.available_teu - bi.teu }) := by
  intro n
  induction n with
  | zero =>
    intro l k l' h
    unfold availSubLoop at h
    injection h with h
    subst h
    exact ⟨rfl, fun m _ => rfl, fun m hk hm => absurd hm (by omega)⟩
  | succ n ih =>
    intro l k l' h
    unfold availSubLoop at h
    simp only [Option.bind_eq_bind, Option.bind_eq_some] at h
    obtain ⟨cp, hcp, w, hw, te, hte, hrec⟩ := h
    unfold checkedSub at hw hte
    split at hw
    case isFalse => cases hw
    case isTrue hwle =>
    split at hte
    case isFalse => cases hte
    case isTrue htele =>
    injection hw with hw
    injection hte with hte
    subst hw
    subst hte
    obtain ⟨hlen, hout, hin⟩ := ih _ _ _ hrec
    have hklen : k < l.length := by
      rcases List.getElem?_eq_some.mp hcp with ⟨hk, _⟩
      exact hk
    refine ⟨by rw [hlen, List.length_set], ?_, ?_⟩
    · intro m hm
      have hmk : m ≠ k := by omega
      have : l'[m]? = (l.set k _)[m]? := hout m (by omega)
      rw [this, List.getElem?_set_ne (fun hc => hmk hc.symm)]
    · intro m hkm hmn
      by_cases hmk : m = k
      · subst hmk
        refine ⟨cp, hcp, hwle, htele, ?_⟩
        have : l'[m]? = (l.set m _)[m]? := hout m (by omega)
        rw [this, List.getElem?_set_self hklen]
      · obtain ⟨cp', hcp', hw', hte', hl'⟩ := hin m (by omega) (by omega)
        rw [List.getElem?_set_ne (fun hc => hmk hc.symm)] at hcp'
        exact ⟨cp', hcp', hw', hte', hl'⟩

theorem availAddLoop_spec (bi : BookingInformation) (td : TruckData) :
    ∀ (n : Nat) (l : List Checkpoint) (k : Nat) (l' : List Checkpoint),
    availAddLoop bi td l k n = some l' →
    l'.length = l.length ∧
    (∀ m, m < k ∨ k + n ≤ m → l'[m]? = l[m]?) ∧
    (∀ m, k ≤ m → m < k + n → ∃ cp, l[m]? = some cp ∧
      l'[m]? = some { cp with
        available_weight_kg := cp.available_weight_kg + bi.weight_kg,
        available_teu := cp.available_teu + bi.teu }) := by
  intro n
  induction n with
  | zero =>
    intro l k l' h
    unfold availAddLoop at h
    injection h with h
    subst h
    exact ⟨rfl, fun m _ => rfl, fun m hk hm => absurd hm (by omega)⟩
  | succ n ih =>
    intro l k l' h
    unfold availAddLoop at h
    simp only [Option.bind_eq_bind, Option.bind_eq_some] at h
    obtain ⟨cp, hcp, u1, hg1, u2, hg2, hrec⟩ := h
    rw [Option.guard_eq_some'] at hg1 hg2
    obtain ⟨hlen, hout, hin⟩ := ih _ _ _ hrec
    have hklen : k < l.length := by
      rcases List.getElem?_eq_some.mp hcp with ⟨hk, _⟩
      exact hk
    refine ⟨by rw [hlen, List.length_set], ?_, ?_⟩
    · intro m hm
      have hmk : m ≠ k := by omega
      have : l'[m]? = (l.set k _)[m]? := hout m (by omega)
      rw [this, List.getElem?_set_ne (fun hc => hmk hc.symm)]
    · intro m hkm hmn
      by_cases hmk : m = k
      · subst hmk
        refine ⟨cp, hcp, ?_⟩
        have : l'[m]? = (l.set m _)[m]? := hout m (by omega)
        rw [this, List.getElem?_set_self hklen]
      · obtain ⟨cp', hcp', hl'⟩ := hin m (by omega) (by omega)
        rw [List.getElem?_set_ne (fun hc => hmk hc.symm)] at hcp'
        exact ⟨cp', hcp', hl'⟩

theorem mem_insertCargo (x c : Cargo) (l : List Cargo) :
    x ∈ insertCargo c l ↔ x = c ∨ x ∈ l := by
  induction l with
  | nil => simp [insertCargo]
  | cons y ys ih =>
    unfold insertCargo
    split
    · simp [or_comm, or_assoc, or_left_comm]
    · split
      · rename_i hlt heq
        rw [cargoId_inj heq]
        simp only [List.mem_cons]
        constructor
        · rintro (hx | hx)
          · exact Or.inl hx
          · exact Or.inr (Or.inr hx)
        · rintro (hx | hx | hx)
          · exact Or.inl hx
          · exact Or.inl hx
          · exact Or.inr hx
      · simp only [List.mem_cons, ih]
        tauto

theorem removeCargo_of_not_mem {c : Cargo} {l : List Cargo} (h : c ∉ l) :
    removeCargo c l = l := by
  unfold removeCargo
  rw [List.filter_eq_self]
  intro y hy
  have hyc : y.id ≠ c.id := fun hc => h (cargoId_inj hc ▸ hy)
  simp [hyc]

theorem removeCargo_insertCargo {c : Cargo} {l : List Cargo} (h : c ∉ l) :
    removeCargo c (insertCargo c l) = l := by
  induction l with
  | nil => simp [insertCargo, removeCargo]
  | cons x xs ih =>
    have hcx : c ≠ x := fun hc => h (hc ▸ List.mem_cons_self _ _)
    have hxs : c ∉ xs := fun hc => h (List.mem_cons_of_mem _ hc)
    have hxc : x.id ≠ c.id := fun hc => hcx (cargoId_inj hc).symm
    unfold insertCargo
    split
    · unfold removeCargo
      rw [List.filter_cons, List.filter_cons]
      have hres := removeCargo_of_not_mem hxs
      unfold removeCargo at hres
      simp [hxc, hres]
      intro a ha hc
      exact hxs (cargoId_inj hc ▸ ha)
    · split
      · rename_i hlt heq
        exact absurd (cargoId_inj heq) hcx
      · unfold removeCargo
        rw [List.filter_cons]
        have hres := ih hxs
        unfold removeCargo at hres
        simp only [ne_eq, decide_not] at hres
        simp [hxc, hres]

theorem alGet_alSet_self {K V : Type} [DecidableEq K] {l : List (K × V)}
    {k : K} {v0 : V} (h : alGet l k = some v0) (v : V) :
    alGet (alSet l k v) k = some v := by
  induction l with
  | nil => cases h
  | cons p rest ih =>
    rw [alGet_cons] at h
    unfold alSet
    rw [List.map_cons]
    by_cases hp : p.1 = k
    · rw [if_pos hp, alGet_cons]
      simp [hp]
    · rw [if_neg hp, alGet_cons, if_neg hp]
      rw [if_neg hp] at h
      exact ih h

theorem alGet_alSet_ne {K V : Type} [DecidableEq K] (l : List (K × V))
    (k k' : K) (v : V) (h : k' ≠ k) :
    alGet (alSet l k v) k' = alGet l k' := by
  induction l with
  | nil => rfl
  | cons p rest ih =>
    unfold alSet
    rw [List.map_cons]
    by_cases hp : p.1 = k
    · rw [if_pos hp, alGet_cons, alGet_cons]
      simp only
      rw [if_neg (hp ▸ fun hc : k = k' => h hc.symm),
        if_neg (fun hc : p.1 = k' => h (hp ▸ hc).symm)]
      exact ih
    · rw [if_neg hp, alGet_cons, alGet_cons]
      split
      · rfl
      · exact ih

theorem alSet_alSet {K V : Type} [DecidableEq K] (l : List (K × V)) (k : K)
    (v w : V) : alSet (alSet l k v) k w = alSet l k w := by
  unfold alSet
  rw [List.map_map]
  apply List.map_congr_left
  intro p _
  by_cases hp : p.1 = k
  · simp [hp]
  · simp [hp]

theorem alErase_alInsert_of_none {V : Type} {l : List (Cargo × V)} {k : Cargo}
    {v : V} (h : alGet l k = none) :
    alErase Cargo.id k (alInsert Cargo.id k v l) = l := by
  have hself : ∀ l' : List (Cargo × V), alGet l' k = none →
      alErase Cargo.id k l' = l' := by
    intro l' hl'
    unfold alErase
    rw [List.filter_eq_self]
    intro p hp
    rw [alGet_eq_none_iff] at hl'
    have : p.1.id ≠ k.id := fun hc => hl' p hp (cargoId_inj hc)
    simpa using this
  induction l with
  | nil =>
    unfold alInsert alErase
    rw [List.filter_cons]
    simp
  | cons p rest ih =>
    rw [alGet_cons] at h
    split at h
    · cases h
    · rename_i hp
      have hpk : p.1.id ≠ k.id := fun hc => hp (cargoId_inj hc)
      unfold alInsert
      split
      · unfold alErase
        rw [List.filter_cons, List.filter_cons]
        have hres := hself (p :: rest) (by rw [alGet_cons, if_neg hp]; exact h)
        unfold alErase at hres
        rw [List.filter_cons] at hres
        simp only [hpk, ne_eq, decide_not] at hres ⊢
        simpa using hres
      · split
        · rename_i hlt heq
          exact absurd heq.symm hpk
        · unfold alErase
          rw [List.filter_cons]
          have hres := ih h
          unfold alErase at hres
          simp only [ne_eq, decide_not] at hres ⊢
          rw [hres]
          simp [hpk]

theorem addRandomDelivery_inv {G : ScheduleGenerator} {S : Schedule}
    {truck : Truck} {cargo : Cargo} {i j : Nat} {t1 t2 : Time} {S1 : Schedule}
    (h : G.addRandomDelivery S truck cargo i j t1 t2 = some S1) :
    ∃ cps start_cp end_cp bi cpsC,
      alGet S.truck_checkpoints truck = some cps ∧
      i < j ∧
      cps[i]? = some start_cp ∧ cps[j]? = some end_cp ∧
      alGet S.scheduled_cargo_truck cargo = none ∧
      alGet G.cargo_booking_info cargo = some bi ∧
      availSubLoop bi
        ((cps.set i { start_cp with
            pickup_cargo := insertCargo cargo start_cp.pickup_cargo,
            time := t1 }).set j { end_cp with
            dropoff_cargo := insertCargo cargo end_cp.dropoff_cargo,
            time := t2 }) i (j - i) = some cpsC ∧
      S1 = { S with
        truck_checkpoints := alSet S.truck_checkpoints truck cpsC,
        scheduled_cargo_truck :=
          alInsert Cargo.id cargo truck S.scheduled_cargo_truck } := by
  unfold ScheduleGenerator.addRandomDelivery at h
  simp only [Option.bind_eq_bind, Option.bind_eq_some, Option.guard_eq_some',
    Option.pure_def, Option.some.injEq] at h
  obtain ⟨cps, hcps, u1, hij, start_cp, hstart, end_cp, hend, coll, hcoll,
    u2, hmemc, u3, hisnone, t1v, hfind1, cs, hcs, t2v, hfind2, ce, hce,
    u5, hchain, biv, hbiv, cpsCv, hlast⟩ := h
  have ht1v : t1v = t1 := findRandomRescheduleTime_eq hfind1
  subst ht1v
  have ht2v : t2v = t2 := findRandomRescheduleTime_eq hfind2
  subst ht2v
  rw [hstart] at hcs
  injection hcs with hcs
  subst hcs
  have hij' : i ≠ j := Nat.ne_of_lt hij
  rw [List.getElem?_set_ne hij', hend] at hce
  injection hce with hce
  subst hce
  rw [Option.isNone_iff_eq_none] at hisnone
  exact ⟨cps, start_cp, end_cp, biv, cpsCv, hcps, hij, hstart, hend,
    hisnone, hbiv, hlast.1, hlast.2.symm⟩

theorem removeRandomDelivery_inv {G : ScheduleGenerator} {S : Schedule}
    {cargo : Cargo} {S2 : Schedule}
    (h : G.removeRandomDelivery S cargo = some S2) :
    ∃ truck cps si start_cp ei end_cp bi td cpsF,
      alGet S.scheduled_cargo_truck cargo = some truck ∧
      alGet S.truck_checkpoints truck = some cps ∧
      cps.findIdx? (fun cp => decide (cargo ∈ cp.pickup_cargo)) = some si ∧
      cps[si]? = some start_cp ∧
      (cps.set si { start_cp with
          pickup_cargo := removeCargo cargo start_cp.pickup_cargo
        }).findIdx? (fun cp => decide (cargo ∈ cp.dropoff_cargo)) = some ei ∧
      (cps.set si { start_cp with
          pickup_cargo := removeCargo cargo start_cp.pickup_cargo
        })[ei]? = some end_cp ∧
      alGet G.cargo_booking_info cargo = some bi ∧
      alGet G.truck_data truck = some td ∧
      si ≤ ei ∧
      availAddLoop bi td
        ((cps.set si { start_cp with
            pickup_cargo := removeCargo cargo start_cp.pickup_cargo
          }).set ei { end_cp with
            dropoff_cargo := removeCargo cargo end_cp.dropoff_cargo })
        si (ei - si) = some cpsF ∧
      S2 = { S with
        truck_checkpoints := alSet S.truck_checkpoints truck cpsF,
        scheduled_cargo_truck :=
          alErase Cargo.id cargo S.scheduled_cargo_truck } := by
  unfold ScheduleGenerator.removeRandomDelivery at h
  simp only [Option.bind_eq_bind, Option.bind_eq_some, Option.guard_eq_some',
    Option.pure_def, Option.some.injEq] at h
  obtain ⟨truck, htruck, cps, hcps, si, hsi, start_cp, hstart, u1, hcount1,
    ei, hei, end_cp, hend, u2, hcount2, biv, hbiv, tdv, htdv, u3, hsiei,
    cpsFv, hlast⟩ := h
  exact ⟨truck, cps, si, start_cp, ei, end_cp, biv, tdv, cpsFv, htruck,
    hcps, hsi, hstart, hei, hend, hbiv, htdv, hsiei, hlast.1, hlast.2.symm⟩

/-- C3 counterexample: the add-delivery/remove-delivery round trip does NOT
restore the original schedule.  On `S3` (truck visiting `tA` at 100 and
`tB` at 500), adding cargo0 between checkpoints 0 and 1 reschedules them to
times 150 and 600; removing the cargo restores the cargo sets, capacities
and assignment map, but the checkpoint times stay 150 and 600 ≠ 100, 500. -/
theorem c3_roundtrip_changes_times :
    ((G3.addRandomDelivery S3 truck0 cargo0 0 1 150 600).bind
      (fun s1 => G3.removeRandomDelivery s1 cargo0)) =
      some ⟨[(truck0,
        [⟨150, tA, [], [], 10, 100⟩, ⟨600, tB, [], [], 10, 100⟩])],
        [], [(truck0, 100)]⟩ ∧
    (⟨[(truck0, [⟨150, tA, [], [], 10, 100⟩, ⟨600, tB, [], [], 10, 100⟩])],
      [], [(truck0, 100)]⟩ : Schedule) ≠ S3 := by
  decide

/-- C3 amended: if add-delivery schedules `cargo` between checkpoint
indices `i` and `j` (rescheduling them to the chosen times `t1`, `t2`) and
remove-delivery of the same cargo follows, then — provided the cargo was
mentioned nowhere in the truck's original checkpoints — the result differs
from the original schedule ONLY in the times of checkpoints `i` and `j`,
which keep the rescheduled values; in particular every `available_*`
returns to its prior value, but the original times are not restored. -/
theorem c3_add_remove_roundtrip (G : ScheduleGenerator) (S0 : Schedule)
    (truck : Truck) (cargo : Cargo) (i j : Nat) (t1 t2 : Time)
    (S1 S2 : Schedule) (cps0 : List Checkpoint)
    (hcps : alGet S0.truck_checkpoints truck = some cps0)
    (hfresh : ∀ cp ∈ cps0, cargo ∉ cp.pickup_cargo ∧ cargo ∉ cp.dropoff_cargo)
    (hadd : G.addRandomDelivery S0 truck cargo i j t1 t2 = some S1)
    (hrem : G.removeRandomDelivery S1 cargo = some S2) :
    S2 = { S0 with truck_checkpoints := (alSet S0.truck_checkpoints truck
      (setCheckpointTime (setCheckpointTime cps0 i t1) j t2)) } := by
  obtain ⟨cps, start_cp, end_cp, bi, cpsC, hcps', hij, hstart, hend,
    hsched0, hbi, hsub, hS1⟩ := addRandomDelivery_inv hadd
  rw [hcps] at hcps'
  injection hcps' with hcps'
  subst hcps'
  have hij' : i ≠ j := Nat.ne_of_lt hij
  have hleni : i < cps0.length := (List.getElem?_eq_some.mp hstart).1
  have hlenj : j < cps0.length := (List.getElem?_eq_some.mp hend).1
  have hfreshi := hfresh start_cp (List.getElem?_mem hstart)
  have hfreshj := hfresh end_cp (List.getElem?_mem hend)
  -- names for the two rescheduled checkpoints
  obtain ⟨hlenC, houtC, hinC⟩ := availSubLoop_spec bi (j - i) _ i cpsC hsub
  have hij2 : i + (j - i) = j := by omega
  -- per-index description of the pre-subtraction list
  have hBi : ((cps0.set i { start_cp with
      pickup_cargo := insertCargo cargo start_cp.pickup_cargo,
      time := t1 }).set j { end_cp with
      dropoff_cargo := insertCargo cargo end_cp.dropoff_cargo,
      time := t2 })[i]? = some { start_cp with
      pickup_cargo := insertCargo cargo start_cp.pickup_cargo,
      time := t1 } := by
    rw [List.getElem?_set_ne (fun hc => hij' hc.symm),
      List.getElem?_set_self hleni]
  have hBj : ((cps0.set i { start_cp with
      pickup_cargo := insertCargo cargo start_cp.pickup_cargo,
      time := t1 }).set j { end_cp with
      dropoff_cargo := insertCargo cargo end_cp.dropoff_cargo,
      time := t2 })[j]? = some { end_cp with
      dropoff_cargo := insertCargo cargo end_cp.dropoff_cargo,
      time := t2 } := by
    rw [List.getElem?_set_self]
    rw [List.length_set]
    exact hlenj
  have hBm : ∀ m, m ≠ i → m ≠ j → ((cps0.set i { start_cp with
      pickup_cargo := insertCargo cargo start_cp.pickup_cargo,
      time := t1 }).set j { end_cp with
      dropoff_cargo := insertCargo cargo end_cp.dropoff_cargo,
      time := t2 })[m]? = cps0[m]? := by
    intro m hmi hmj
    rw [List.getElem?_set_ne (fun hc => hmj hc.symm),
      List.getElem?_set_ne (fun hc => hmi hc.symm)]
  -- per-index description of cpsC
  have hCi : cpsC[i]? = some { start_cp with
      pickup_cargo := insertCargo cargo start_cp.pickup_cargo,
      time := t1,
      available_weight_kg := start_cp.available_weight_kg - bi.weight_kg,
      available_teu := start_cp.available_teu - bi.teu } ∧
      bi.weight_kg ≤ start_cp.available_weight_kg ∧
      bi.teu ≤ start_cp.available_teu := by
    obtain ⟨cp, hcp, hw, hte, hres⟩ := hinC i (le_refl _) (by omega)
    rw [hBi] at hcp
    injection hcp with hcp
    subst hcp
    exact ⟨hres, hw, hte⟩
  have hCmid : ∀ m, i < m → m < j → ∃ cp, cps0[m]? = some cp ∧
      bi.weight_kg ≤ cp.available_weight_kg ∧ bi.teu ≤ cp.available_teu ∧
      cpsC[m]? = some { cp with
        available_weight_kg := cp.available_weight_kg - bi.weight_kg,
        available_teu := cp.available_teu - bi.teu } := by
    intro m him hmj
    obtain ⟨cp, hcp, hw, hte, hres⟩ := hinC m (by omega) (by omega)
    rw [hBm m (by omega) (by omega)] at hcp
    exact ⟨cp, hcp, hw, hte, hres⟩
  have hCj : cpsC[j]? = some { end_cp with
      dropoff_cargo := insertCargo cargo end_cp.dropoff_cargo,
      time := t2 } := by
    rw [houtC j (Or.inr (by omega)), hBj]
  have hClow : ∀ m, m < i → cpsC[m]? = cps0[m]? := by
    intro m hm
    rw [houtC m (Or.inl hm), hBm m (by omega) (by omega)]
  have hChigh : ∀ m, j < m → cpsC[m]? = cps0[m]? := by
    intro m hm
    rw [houtC m (Or.inr (by omega)), hBm m (by omega) (by omega)]
  -- dissect the removal
  obtain ⟨truck', cpsC', si, start_cp', ei, end_cp', bi', td', cpsF,
    htruck', hcps'', hsi, hstart', hei, hend', hbi', htd', hsiei, haddL,
    hS2⟩ := removeRandomDelivery_inv hrem
  rw [hS1] at htruck' hcps''
  simp only at htruck' hcps''
  rw [alGet_alInsert_self Cargo.id] at htruck'
  injection htruck' with htruck'
  subst htruck'
  rw [alGet_alSet_self hcps] at hcps''
  injection hcps'' with hcps''
  subst hcps''
  rw [hbi] at hbi'
  injection hbi' with hbi'
  subst hbi'
  -- the pickup search finds exactly index i
  have hsi' : si = i := by
    have hfind : cpsC.findIdx?
        (fun cp => decide (cargo ∈ cp.pickup_cargo)) = some i := by
      apply findIdx?_eq_some_of _ _ _ _ hCi.1
      · simp [mem_insertCargo]
      · intro m hm y hy
        rw [hClow m hm] at hy
        have := (hfresh y (List.getElem?_mem hy)).1
        simpa using this
    rw [hsi] at hfind
    exact Option.some.inj hfind
  subst si
  rw [hCi.1] at hstart'
  injection hstart' with hstart'
  subst hstart'
  -- restoring the pickup set gives back the original at i
  rw [show removeCargo cargo (insertCargo cargo start_cp.pickup_cargo) =
    start_cp.pickup_cargo from removeCargo_insertCargo hfreshi.1]
    at hei hend' haddL
  dsimp only at hei hend' haddL
  -- the dropoff search finds exactly index j
  have hCset_i : ∀ m, m ≠ i →
      (cpsC.set i { start_cp with
        pickup_cargo := start_cp.pickup_cargo,
        time := t1,
        available_weight_kg := start_cp.available_weight_kg - bi.weight_kg,
        available_teu := start_cp.available_teu - bi.teu })[m]? =
      cpsC[m]? := by
    intro m hm
    exact List.getElem?_set_ne (fun hc => hm hc.symm)
  have hCset_ii :
      (cpsC.set i { start_cp with
        pickup_cargo := start_cp.pickup_cargo,
        time := t1,
        available_weight_kg := start_cp.available_weight_kg - bi.weight_kg,
        available_teu := start_cp.available_teu - bi.teu })[i]? =
      some { start_cp with
        pickup_cargo := start_cp.pickup_cargo,
        time := t1,
        available_weight_kg := start_cp.available_weight_kg - bi.weight_kg,
        available_teu := start_cp.available_teu - bi.teu } := by
    rw [List.getElem?_set_self]
    rw [hlenC, List.length_set, List.length_set]
    exact hleni
  have hei' : ei = j := by
    have hx : (cpsC.set i { start_cp with
        pickup_cargo := start_cp.pickup_cargo,
        time := t1,
        available_weight_kg := start_cp.available_weight_kg - bi.weight_kg,
        available_teu := start_cp.available_teu - bi.teu })[j]? =
        some { end_cp with
          dropoff_cargo := insertCargo cargo end_cp.dropoff_cargo,
          time := t2 } := by
      rw [hCset_i j (fun hc => hij' hc.symm)]
      exact hCj
    have hfind : (cpsC.set i { start_cp with
        pickup_cargo := start_cp.pickup_cargo,
        time := t1,
        available_weight_kg := start_cp.available_weight_kg - bi.weight_kg,
        available_teu := start_cp.available_teu - bi.teu }).findIdx?
        (fun cp => decide (cargo ∈ cp.dropoff_cargo)) = some j := by
      apply findIdx?_eq_some_of _ _ _ _ hx
      · simp [mem_insertCargo]
      · intro m hm y hy
        by_cases hmi : m = i
        · subst hmi
          rw [hCset_ii] at hy
          injection hy with hy
          subst hy
          simpa using hfreshi.2
        · rw [hCset_i m hmi] at hy
          by_cases hmlow : m < i
          · rw [hClow m hmlow] at hy
            have := (hfresh y (List.getElem?_mem hy)).2
            simpa using this
          · obtain ⟨cp, hcp, _, _, hres⟩ := hCmid m (by omega) hm
            rw [hres] at hy
            injection hy with hy
            subst hy
            have := (hfresh cp (List.getElem?_mem hcp)).2
            simpa using this
    rw [hei] at hfind
    exact Option.some.inj hfind
  subst ei
  rw [hCset_i j (fun hc => hij' hc.symm), hCj] at hend'
  injection hend' with hend'
  subst hend'
  rw [show removeCargo cargo (insertCargo cargo end_cp.dropoff_cargo) =
    end_cp.dropoff_cargo from removeCargo_insertCargo hfreshj.2] at haddL
  -- characterize the re-addition result
  obtain ⟨hlenF, houtF, hinF⟩ := availAddLoop_spec bi td' (j - i) _ i cpsF haddL
  -- target list
  have hR : setCheckpointTime (setCheckpointTime cps0 i t1) j t2 =
      (cps0.set i { start_cp with time := t1 }).set j
        { end_cp with time := t2 } := by
    unfold setCheckpointTime
    rw [hstart]
    simp only
    rw [List.getElem?_set_ne (fun hc => hij' hc), hend]
  rw [hR]
  -- the final checkpoint list equals the retimed original
  have hmain : cpsF = (cps0.set i { start_cp with time := t1 }).set j
      { end_cp with time := t2 } := by
    apply List.ext_getElem?
    intro m
    by_cases hmi : m = i
    · subst hmi
      obtain ⟨cp, hcp, hres⟩ := hinF m (le_refl _) (by omega)
      rw [List.getElem?_set_ne (fun hc => hij' hc.symm),
        List.getElem?_set_self hleni]
      rw [List.getElem?_set_ne (fun hc => hij' hc.symm),
        hCset_ii] at hcp
      injection hcp with hcp
      subst hcp
      rw [hres]
      simp only
      rw [Nat.sub_add_cancel hCi.2.1, Nat.sub_add_cancel hCi.2.2]
    · by_cases hmj : m = j
      · subst hmj
        rw [houtF m (Or.inr (by omega))]
        rw [List.getElem?_set_self]
        · rw [List.getElem?_set_self]
          rw [List.length_set]
          exact hlenj
        · rw [List.length_set, hlenC, List.length_set, List.length_set]
          exact hlenj
      · by_cases hmmid : i < m ∧ m < j
        · obtain ⟨cp, hcp, hw, hte, hres⟩ := hCmid m hmmid.1 hmmid.2
          obtain ⟨cp2, hcp2, hres2⟩ := hinF m (by omega) (by omega)
          rw [List.getElem?_set_ne (fun hc => hmj hc.symm),
            List.getElem?_set_ne (fun hc => hmi hc.symm),
            hres] at hcp2
          injection hcp2 with hcp2
          subst hcp2
          rw [hres2, List.getElem?_set_ne (fun hc => hmj hc.symm),
            List.getElem?_set_ne (fun hc => hmi hc.symm), hcp]
          simp only
          rw [Nat.sub_add_cancel hw, Nat.sub_add_cancel hte]
        · have hout : m < i ∨ j < m := by omega
          rw [houtF m (by omega), List.getElem?_set_ne (fun hc => hmj hc.symm),
            List.getElem?_set_ne (fun hc => hmi hc.symm)]
          rcases hout with hout | hout
          · rw [hClow m hout, List.getElem?_set_ne (fun hc => hmj hc.symm),
              List.getElem?_set_ne (fun hc => hmi hc.symm)]
          · rw [hChigh m hout, List.getElem?_set_ne (fun hc => hmj hc.symm),
              List.getElem?_set_ne (fun hc => hmi hc.symm)]
  -- assemble the schedule equality
  rw [hS2, hS1]
  simp only
  rw [hmain, alSet_alSet, alErase_alInsert_of_none hsched0]

/-- Witness for `c3_add_remove_roundtrip`: on `G3`/`S3` with cargo0 added
between checkpoints 0 and 1 at times 150 and 600 and then removed, the
hypotheses hold and the result is `S3` with only those two times changed. -/
theorem c3_add_remove_roundtrip_witness :
    (∀ cp ∈ [(⟨100, tA, [], [], 10, 100⟩ : Checkpoint),
        ⟨500, tB, [], [], 10, 100⟩],
      cargo0 ∉ cp.pickup_cargo ∧ cargo0 ∉ cp.dropoff_cargo) ∧
    (⟨[(truck0, [⟨150, tA, [], [], 10, 100⟩, ⟨600, tB, [], [], 10, 100⟩])],
        [], [(truck0, 100)]⟩ : Schedule) =
      { S3 with truck_checkpoints := (alSet S3.truck_checkpoints truck0
        (setCheckpointTime (setCheckpointTime
          [⟨100, tA, [], [], 10, 100⟩, ⟨500, tB, [], [], 10, 100⟩] 0 150)
          1 600)) } :=
  ⟨by decide,
   c3_add_remove_roundtrip G3 S3 truck0 cargo0 0 1 150 600
     ⟨[(truck0, [⟨150, tA, [cargo0], [], 9, 90⟩,
        ⟨600, tB, [], [cargo0], 10, 100⟩])],
      [(cargo0, truck0)], [(truck0, 100)]⟩
     ⟨[(truck0, [⟨150, tA, [], [], 10, 100⟩, ⟨600, tB, [], [], 10, 100⟩])],
      [], [(truck0, 100)]⟩
     [⟨100, tA, [], [], 10, 100⟩, ⟨500, tB, [], [], 10, 100⟩]
     (by decide) (by decide) (by decide) (by decide)⟩

/-! ## Helper lemmas for the C2 driving-times invariant -/

theorem listChainB_iff_chain' {A : Type} (r : A → A → Bool) :
    ∀ (l : List A), listChainB r l = true ↔
      List.Chain' (fun a b => r a b = true) l
  | [] => by simp [listChainB]
  | [a] => by simp [listChainB]
  | a :: b :: rest => by
    rw [listChainB, Bool.and_eq_true, List.chain'_cons,
      listChainB_iff_chain' r (b :: rest)]

theorem find?_eq_getElem?_of_findIdx? {A : Type} (p : A → Bool) :
    ∀ (l : List A) (i : Nat), l.findIdx? p = some i → l.find? p = l[i]?
  | [], i, h => by simp at h
  | a :: l, i, h => by
    rw [List.findIdx?_cons] at h
    cases hpa : p a with
    | true =>
      simp only [hpa, if_true] at h
      injection h with h
      subst h
      simp [List.find?_cons, hpa]
    | false =>
      simp only [hpa, Bool.false_eq_true, if_false, List.findIdx?_succ,
        Option.map_eq_some'] at h
      obtain ⟨j, hj, hji⟩ := h
      subst hji
      rw [List.find?_cons]
      simp only [hpa]
      simpa using find?_eq_getElem?_of_findIdx? p l j hj

theorem find?_eq_none_of_findIdx?_none {A : Type} (p : A → Bool)
    (l : List A) (h : l.findIdx? p = none) : l.find? p = none := by
  rw [List.find?_eq_none]
  intro x hx
  have := List.findIdx?_eq_none_iff.mp h x hx
  simp [this]

theorem revFind_of_initSeg {A : Type} (p : A → Bool) :
    ∀ (l : List A) (n : Nat), n ≤ l.length →
    (∀ (i : Nat) (a : A), l[i]? = some a → (p a = true ↔ i < n)) →
    l.reverse.find? p = if n = 0 then none else l[n - 1]?
  | [], n, hn, _ => by
    have h0 : n = 0 := Nat.le_zero.mp hn
    subst h0
    simp
  | x :: l, n, hn, hiff => by
    rw [List.reverse_cons, List.find?_append]
    cases n with
    | zero =>
      have hx : p x = false := by
        have := hiff 0 x (by simp)
        simp at this
        exact this
      have hl : l.reverse.find? p = none := by
        rw [revFind_of_initSeg p l 0 (Nat.zero_le _)
          (fun i a ha => by
            have := hiff (i + 1) a (by simpa using ha)
            simpa using this)]
        simp
      rw [hl]
      simp [List.find?_cons, hx]
    | succ m =>
      have hx : p x = true := by
        have := hiff 0 x (by simp)
        simpa using this.mpr (Nat.succ_pos m)
      have hm : m ≤ l.length := by simpa using hn
      have ihl : l.reverse.find? p = if m = 0 then none else l[m - 1]? :=
        revFind_of_initSeg p l m hm
          (fun i a ha => by
            have := hiff (i + 1) a (by simpa using ha)
            simpa [Nat.succ_lt_succ_iff] using this)
      cases m with
      | zero =>
        rw [ihl]
        simp [List.find?_cons, hx]
      | succ k =>
        have hk : k < l.length := by omega
        obtain ⟨y, hy⟩ : ∃ y, l[k]? = some y :=
          ⟨_, List.getElem?_eq_getElem hk⟩
        rw [ihl, if_neg (Nat.succ_ne_zero k), if_neg (Nat.succ_ne_zero (k + 1))]
        simp only [Nat.add_sub_cancel, List.getElem?_cons_succ]
        rw [hy]
        rfl

theorem chainLt_head_lt {l : List Checkpoint} {a : Checkpoint}
    (h : List.Chain' (fun u v : Checkpoint => u.time < v.time) (a :: l)) :
    ∀ (k : Nat) (b : Checkpoint), l[k]? = some b → a.time < b.time := by
  induction l generalizing a with
  | nil => intro k b hb; simp at hb
  | cons x xs ih =>
    intro k b hb
    rw [List.chain'_cons] at h
    cases k with
    | zero =>
      rw [List.getElem?_cons_zero] at hb
      injection hb with hb
      subst hb
      exact h.1
    | succ k =>
      rw [List.getElem?_cons_succ] at hb
      exact lt_trans h.1 (ih h.2 k b hb)

theorem chainLt_getElem?_lt {l : List Checkpoint}
    (h : List.Chain' (fun u v : Checkpoint => u.time < v.time) l) :
    ∀ (i j : Nat) (a b : Checkpoint), i < j → l[i]? = some a →
      l[j]? = some b → a.time < b.time := by
  induction l with
  | nil => intro i j a b hij ha hb; simp at ha
  | cons x xs ih =>
    intro i j a b hij ha hb
    cases i with
    | zero =>
      rw [List.getElem?_cons_zero] at ha
      injection ha with ha
      subst ha
      cases j with
      | zero => omega
      | succ j =>
        rw [List.getElem?_cons_succ] at hb
        exact chainLt_head_lt h j b hb
    | succ i =>
      cases j with
      | zero => omega
      | succ j =>
        rw [List.getElem?_cons_succ] at ha hb
        exact ih (List.Chain'.tail h) i j a b (by omega) ha hb

theorem map_insertIdx {A B : Type} (f : A → B) :
    ∀ (k : Nat) (l : List A) (a : A),
    (l.insertIdx k a).map f = (l.map f).insertIdx k (f a)
  | 0, l, a => by simp [List.insertIdx_zero]
  | k + 1, [], a => by simp
  | k + 1, x :: l, a => by
    rw [List.insertIdx_succ_cons, List.map_cons, List.map_cons,
      List.insertIdx_succ_cons, map_insertIdx f k l a]

theorem map_eraseIdx {A B : Type} (f : A → B) :
    ∀ (k : Nat) (l : List A),
    (l.eraseIdx k).map f = (l.map f).eraseIdx k
  | _, [] => by simp
  | 0, x :: l => by simp [List.eraseIdx_cons_zero]
  | k + 1, x :: l => by
    rw [List.eraseIdx_cons_succ, List.map_cons, List.map_cons,
      List.eraseIdx_cons_succ, map_eraseIdx f k l]

theorem findIdx?_some_inv {A : Type} (p : A → Bool) :
    ∀ (l : List A) (i : Nat), l.findIdx? p = some i →
    (∃ a, l[i]? = some a ∧ p a = true) ∧
      ∀ (m : Nat), m < i → ∀ (y : A), l[m]? = some y → p y = false
  | [], i, h => by simp at h
  | a :: l, i, h => by
    rw [List.findIdx?_cons] at h
    cases hpa : p a with
    | true =>
      simp only [hpa, if_true] at h
      injection h with h
      subst h
      exact ⟨⟨a, by simp, hpa⟩, fun m hm => absurd hm (by omega)⟩
    | false =>
      simp only [hpa, Bool.false_eq_true, if_false, List.findIdx?_succ,
        Option.map_eq_some'] at h
      obtain ⟨j, hj, hji⟩ := h
      subst hji
      obtain ⟨⟨b, hb, hpb⟩, hbefore⟩ := findIdx?_some_inv p l j hj
      refine ⟨⟨b, by simpa using hb, hpb⟩, ?_⟩
      intro m hm y hy
      cases m with
      | zero =>
        rw [List.getElem?_cons_zero] at hy
        injection hy with hy
        subst hy
        exact hpa
      | succ m =>
        rw [List.getElem?_cons_succ] at hy
        exact hbefore m (by omega) y hy

theorem sorted_gap_split (cps : List Checkpoint) (t : Time)
    (hs : List.Chain' (fun a b : Checkpoint => a.time < b.time) cps) :
    ∃ n, n ≤ cps.length ∧
      (∀ (i : Nat) (a : Checkpoint), cps[i]? = some a → (a.time ≤ t ↔ i < n)) ∧
      cps.reverse.find? (fun c => decide (c.time ≤ t)) =
        (if n = 0 then none else cps[n - 1]?) ∧
      cps.find? (fun c => decide (t < c.time)) = cps[n]? := by
  cases hf : cps.findIdx? (fun c => decide (t < c.time)) with
  | some m =>
    obtain ⟨⟨b, hb, hpb⟩, hbef⟩ := findIdx?_some_inv _ cps m hf
    rw [decide_eq_true_eq] at hpb
    have hmlen : m < cps.length := (List.getElem?_eq_some.mp hb).1
    have hiff : ∀ (i : Nat) (a : Checkpoint), cps[i]? = some a →
        (a.time ≤ t ↔ i < m) := by
      intro i a ha
      constructor
      · intro hat
        by_contra hge
        push_neg at hge
        rcases Nat.lt_or_ge m i with hlt | hle
        · have hba := chainLt_getElem?_lt hs m i b a hlt hb ha
          exact lt_irrefl _ (lt_trans (lt_of_le_of_lt hat hpb) hba)
        · have him : i = m := by omega
          subst him
          rw [ha] at hb
          injection hb with hb
          subst hb
          exact absurd hpb (not_lt.mpr hat)
      · intro him
        have := hbef i him a ha
        rw [decide_eq_false_iff_not] at this
        exact le_of_not_lt this
    refine ⟨m, Nat.le_of_lt hmlen, hiff, ?_, ?_⟩
    · exact revFind_of_initSeg _ cps m (Nat.le_of_lt hmlen)
        (fun i a ha => by rw [decide_eq_true_eq]; exact hiff i a ha)
    · rw [find?_eq_getElem?_of_findIdx? _ cps m hf]
  | none =>
    have hall := List.findIdx?_eq_none_iff.mp hf
    have hiff : ∀ (i : Nat) (a : Checkpoint), cps[i]? = some a →
        (a.time ≤ t ↔ i < cps.length) := by
      intro i a ha
      have hmem := List.getElem?_mem ha
      have := hall a hmem
      rw [decide_eq_false_iff_not] at this
      have hlen := (List.getElem?_eq_some.mp ha).1
      constructor
      · intro _; exact hlen
      · intro _; exact le_of_not_lt this
    refine ⟨cps.length, le_refl _, hiff, ?_, ?_⟩
    · exact revFind_of_initSeg _ cps cps.length (le_refl _)
        (fun i a ha => by rw [decide_eq_true_eq]; exact hiff i a ha)
    · rw [find?_eq_none_of_findIdx?_none _ cps hf]
      have : cps[cps.length]? = none := by simp
      rw [this]

theorem sorted_prevAndNext_at (cps : List Checkpoint) (index : Nat)
    (cp : Checkpoint)
    (hs : List.Chain' (fun a b : Checkpoint => a.time < b.time) cps)
    (hcp : cps[index]? = some cp) :
    cps.reverse.find? (fun c => decide (c.time < cp.time)) =
      (if index = 0 then none else cps[index - 1]?) ∧
    cps.find? (fun c => decide (cp.time < c.time)) = cps[index + 1]? := by
  have hlen : index < cps.length := (List.getElem?_eq_some.mp hcp).1
  constructor
  · apply revFind_of_initSeg _ cps index (Nat.le_of_lt hlen)
    intro i a ha
    rw [decide_eq_true_eq]
    constructor
    · intro hat
      by_contra hge
      push_neg at hge
      rcases Nat.lt_or_ge index i with hlt | hle
      · have hca := chainLt_getElem?_lt hs index i cp a hlt hcp ha
        exact lt_irrefl _ (lt_trans hat hca)
      · have : i = index := by omega
        subst this
        rw [ha] at hcp
        injection hcp with hcp
        subst hcp
        exact lt_irrefl _ hat
    · intro hi
      exact chainLt_getElem?_lt hs i index a cp hi ha hcp
  · cases hnext : cps[index + 1]? with
    | some nxt =>
      have hfi : cps.findIdx? (fun c => decide (cp.time < c.time)) =
          some (index + 1) := by
        apply findIdx?_eq_some_of _ _ _ _ hnext
        · rw [decide_eq_true_eq]
          exact chainLt_getElem?_lt hs index (index + 1) cp nxt (by omega)
            hcp hnext
        · intro m hm y hy
          rw [decide_eq_false_iff_not]
          rcases Nat.lt_or_ge m index with hlt | hle
          · have hyc := chainLt_getElem?_lt hs m index y cp hlt hy hcp
            exact asymm hyc
          · have : m = index := by omega
            subst this
            rw [hy] at hcp
            injection hcp with hcp
            subst hcp
            exact lt_irrefl _
          
      rw [find?_eq_getElem?_of_findIdx? _ cps (index + 1) hfi]
      exact hnext
    | none =>
      have hfn : cps.findIdx? (fun c => decide (cp.time < c.time)) = none := by
        rw [List.findIdx?_eq_none_iff]
        intro x hx
        rw [List.mem_iff_getElem?] at hx
        obtain ⟨i, hi⟩ := hx
        rw [decide_eq_false_iff_not]
        have hilen : i < cps.length := (List.getElem?_eq_some.mp hi).1
        have hup : cps.length ≤ index + 1 := by
          by_contra hq
          push_neg at hq
          obtain ⟨y, hy⟩ : ∃ y, cps[index + 1]? = some y :=
            ⟨_, List.getElem?_eq_getElem hq⟩
          rw [hnext] at hy
          cases hy
        rcases Nat.lt_or_ge i index with hlt | hle
        · have hxc := chainLt_getElem?_lt hs i index x cp hlt hi hcp
          exact asymm hxc
        · have : i = index := by omega
          subst this
          rw [hi] at hcp
          injection hcp with hcp
          subst hcp
          exact lt_irrefl _
      rw [find?_eq_none_of_findIdx?_none _ cps hfn]

theorem legsSumTerms_nil (cache : Terminal → Terminal → Option TimeDelta)
    (prev : Terminal) : legsSumTerms cache prev [] = some 0 := rfl

theorem legsSumTerms_cons (cache : Terminal → Terminal → Option TimeDelta)
    (prev t : Terminal) (rest : List Terminal) :
    legsSumTerms cache prev (t :: rest) =
      (getCacheDrivingTime cache prev t).bind (fun d =>
        (legsSumTerms cache t rest).bind (fun r => some (d + r))) := rfl

theorem getGapTerminals_some_prev (G : ScheduleGenerator) (truck : Truck)
    (p : Checkpoint) (next : Option Checkpoint) :
    G.getGapTerminals truck (some p) next =
      some (p.terminal, next.map (·.terminal)) := rfl

theorem getGapTerminals_none_prev_inv {G : ScheduleGenerator} {truck : Truck}
    {next : Option Checkpoint} {pt : Terminal} {ntm : Option Terminal}
    (h : G.getGapTerminals truck none next = some (pt, ntm)) :
    ∃ td, alGet G.truck_data truck = some td ∧
      pt = td.starting_terminal ∧ ntm = next.map (·.terminal) := by
  unfold ScheduleGenerator.getGapTerminals at h
  cases htd : alGet G.truck_data truck with
  | none =>
    rw [htd] at h
    simp at h
  | some td =>
    rw [htd] at h
    simp only [Option.map_some', Option.bind_eq_bind, Option.some_bind,
      Option.pure_def, Option.some.injEq, Prod.mk.injEq] at h
    exact ⟨td, rfl, h.1.symm, h.2.symm⟩

theorem getDrivingTime_some_some (G : ScheduleGenerator) (a b : Terminal)
    (truck : Truck) :
    G.getDrivingTime (some a) (some b) truck =
      getCacheDrivingTime G.driving_times_cache a b := rfl

theorem getDrivingTime_some_none (G : ScheduleGenerator) (a : Terminal)
    (truck : Truck) : G.getDrivingTime (some a) none truck = some 0 := rfl

theorem getDrivingTime_none_inv {G : ScheduleGenerator} {toT : Option Terminal}
    {truck : Truck} {d : TimeDelta}
    (h : G.getDrivingTime none toT truck = some d) :
    ∃ td, alGet G.truck_data truck = some td ∧
      ((∃ b, toT = some b ∧
        getCacheDrivingTime G.driving_times_cache td.starting_terminal b =
          some d) ∨
       (toT = none ∧ d = 0)) := by
  unfold ScheduleGenerator.getDrivingTime at h
  cases htd : alGet G.truck_data truck with
  | none =>
    rw [htd] at h
    simp at h
  | some td =>
    rw [htd] at h
    cases toT with
    | some b =>
      refine ⟨td, rfl, Or.inl ⟨b, rfl, ?_⟩⟩
      simpa using h
    | none =>
      refine ⟨td, rfl, Or.inr ⟨rfl, ?_⟩⟩
      have : some (0 : TimeDelta) = some d := by simpa using h
      injection this with this
      exact this.symm

theorem le_toNat_addSigned {n m : Nat} {d : Int} (hd : 0 ≤ d)
    (h : checkedAddSigned n d = some m) : n ≤ m := by
  unfold checkedAddSigned at h
  split at h
  · injection h with h
    subst h
    rename_i hc
    omega
  · cases h

theorem toNat_addSigned_le {n m : Nat} {d : Int} (hd : 0 ≤ d)
    (h : checkedAddSigned n (-d) = some m) : m ≤ n := by
  unfold checkedAddSigned at h
  split at h
  · injection h with h
    subst h
    rename_i hc
    omega
  · cases h

theorem getDrivingTimeConstraints_window {G : ScheduleGenerator} {truck : Truck}
    {prev next : Option Checkpoint} {newT : Terminal}
    {iv : IntervalWithData Unit}
    (h : G.getDrivingTimeConstraints truck prev next newT = some (some iv)) :
    (prev.map (·.time)).getD G.planning_period.start_time ≤ iv.start_time ∧
      iv.end_time ≤ (next.map (·.time)).getD G.planning_period.end_time := by
  unfold ScheduleGenerator.getDrivingTimeConstraints at h
  simp only [Option.bind_eq_bind, Option.bind_eq_some, Option.pure_def,
    Option.some.injEq] at h
  obtain ⟨d1, hd1, d2, hd2, e, he, l, hl, hres⟩ := h
  have hd1n : (0 : Int) ≤ d1 := getDrivingTime_nonneg G _ _ truck d1 hd1
  have hd2n : (0 : Int) ≤ d2 := getDrivingTime_nonneg G _ _ truck d2 hd2
  unfold IntervalWithData.new at hres
  split at hres
  · cases hres
  · injection hres with hres
    subst hres
    constructor
    · dsimp only
      exact le_toNat_addSigned hd1n he
    · dsimp only
      exact toNat_addSigned_le hd2n hl

theorem checkTruckInvariant_sorted {G : ScheduleGenerator} {truck : Truck}
    {cps : List Checkpoint} {u : Unit}
    (h : G.checkTruckInvariant truck cps = some u) :
    List.Chain' (fun a b : Checkpoint => a.time < b.time) cps := by
  cases cps with
  | nil => exact List.chain'_nil
  | cons hd tl =>
    unfold ScheduleGenerator.checkTruckInvariant at h
    rw [List.head?_cons] at h
    simp only [Option.bind_eq_bind, Option.bind_eq_some, Option.guard_eq_some',
      Option.pure_def, Option.some.injEq] at h
    obtain ⟨u1, hterm, td, htd, u3, hne, hchain⟩ := h
    have := (listChainB_iff_chain' _ (hd :: tl)).mp hchain
    exact this.imp (fun a b hab => of_decide_eq_true hab)

theorem alGet_map_const {K V : Type} [DecidableEq K] (v : V) :
    ∀ (ks : List K) (k : K),
    alGet (ks.map (fun t => (t, v))) k = if k ∈ ks then some v else none
  | [], k => by simp [alGet_nil]
  | x :: ks, k => by
    rw [List.map_cons, alGet_cons]
    by_cases hk : x = k
    · subst hk
      simp
    · rw [if_neg hk, alGet_map_const v ks k]
      by_cases hm : k ∈ ks
      · rw [if_pos hm, if_pos (by simp [hm])]
      · rw [if_neg hm, if_neg (by simp [Ne.symm hk, hm])]

theorem availSubLoop_maps (bi : BookingInformation) (n : Nat)
    (l : List Checkpoint) (k : Nat) (l' : List Checkpoint)
    (h : availSubLoop bi l k n = some l') :
    l'.map (·.terminal) = l.map (·.terminal) ∧
    l'.map (·.time) = l.map (·.time) := by
  obtain ⟨hlen, hout, hin⟩ := availSubLoop_spec bi n l k l' h
  constructor <;>
  · apply List.ext_getElem?
    intro m
    rw [List.getElem?_map, List.getElem?_map]
    by_cases hm : k ≤ m ∧ m < k + n
    · obtain ⟨cp, hcp, _, _, hres⟩ := hin m hm.1 hm.2
      rw [hres, hcp]
      rfl
    · rw [hout m (by omega)]

theorem availAddLoop_maps (bi : BookingInformation) (td : TruckData) (n : Nat)
    (l : List Checkpoint) (k : Nat) (l' : List Checkpoint)
    (h : availAddLoop bi td l k n = some l') :
    l'.map (·.terminal) = l.map (·.terminal) ∧
    l'.map (·.time) = l.map (·.time) := by
  obtain ⟨hlen, hout, hin⟩ := availAddLoop_spec bi td n l k l' h
  constructor <;>
  · apply List.ext_getElem?
    intro m
    rw [List.getElem?_map, List.getElem?_map]
    by_cases hm : k ≤ m ∧ m < k + n
    · obtain ⟨cp, hcp, hres⟩ := hin m hm.1 hm.2
      rw [hres, hcp]
      rfl
    · rw [hout m (by omega)]

theorem chain'_time_of_map_eq {l1 l2 : List Checkpoint}
    (hmap : l1.map (·.time) = l2.map (·.time))
    (h : List.Chain' (fun a b : Checkpoint => a.time < b.time) l2) :
    List.Chain' (fun a b : Checkpoint => a.time < b.time) l1 := by
  have h2 : List.Chain' (fun x y : Time => x < y) (l2.map (·.time)) :=
    (List.chain'_map _).mpr h
  rw [← hmap] at h2
  exact (List.chain'_map _).mp h2

theorem listChainB_time_sorted {l : List Checkpoint}
    (h : listChainB (fun a b => decide (a.time < b.time)) l = true) :
    List.Chain' (fun a b : Checkpoint => a.time < b.time) l := by
  have := (listChainB_iff_chain' _ l).mp h
  exact this.imp (fun a b hab => of_decide_eq_true hab)

theorem legsSumTerms_insertIdx (cache : Terminal → Terminal → Option TimeDelta) :
    ∀ (k : Nat) (ts : List Terminal) (prev a b : Terminal)
      (s d_ab d_bc d_ac : TimeDelta),
    legsSumTerms cache prev ts = some s →
    (if k = 0 then some prev else ts[k - 1]?) = some a →
    getCacheDrivingTime cache a b = some d_ab →
    ((∃ nt, ts[k]? = some nt ∧ getCacheDrivingTime cache b nt = some d_bc ∧
        getCacheDrivingTime cache a nt = some d_ac) ∨
      (ts[k]? = none ∧ d_bc = 0 ∧ d_ac = 0)) →
    legsSumTerms cache prev (ts.insertIdx k b) =
      some (s - d_ac + (d_ab + d_bc))
  | 0, ts, prev, a, b, s, d_ab, d_bc, d_ac, hs, hprev, hab, hnext => by
    rw [if_pos rfl] at hprev
    injection hprev with hprev
    subst hprev
    rw [List.insertIdx_zero]
    rcases hnext with ⟨nt, hnt, hbc, hac⟩ | ⟨hnone, hbc0, hac0⟩
    · cases ts with
      | nil => simp at hnt
      | cons x ts' =>
        rw [List.getElem?_cons_zero] at hnt
        injection hnt with hnt
        subst hnt
        rw [legsSumTerms_cons] at hs
        simp only [Option.bind_eq_some, Option.some.injEq] at hs
        obtain ⟨d0, hd0, r0, hr0, heq⟩ := hs
        rw [hac] at hd0
        injection hd0 with hd0
        rw [legsSumTerms_cons, hab, Option.some_bind, legsSumTerms_cons,
          hbc, Option.some_bind, hr0, Option.some_bind, Option.some_bind]
        rw [Option.some.injEq]
        rw [← hd0] at heq
        linarith
    · cases ts with
      | cons x ts' => simp at hnone
      | nil =>
        rw [legsSumTerms_nil] at hs
        injection hs with hs
        subst hbc0
        subst hac0
        rw [legsSumTerms_cons, hab, Option.some_bind, legsSumTerms_nil,
          Option.some_bind, Option.some.injEq, ← hs]
        ring
  | k + 1, [], prev, a, b, s, d_ab, d_bc, d_ac, hs, hprev, hab, hnext => by
    rw [if_neg (Nat.succ_ne_zero k)] at hprev
    simp at hprev
  | k + 1, x :: ts', prev, a, b, s, d_ab, d_bc, d_ac, hs, hprev, hab, hnext => by
    rw [List.insertIdx_succ_cons]
    rw [legsSumTerms_cons] at hs
    simp only [Option.bind_eq_some, Option.some.injEq] at hs
    obtain ⟨d0, hd0, r0, hr0, heq⟩ := hs
    have hprev' : (if k = 0 then some x else ts'[k - 1]?) = some a := by
      cases k with
      | zero =>
        rw [if_pos rfl]
        rw [if_neg (Nat.succ_ne_zero 0)] at hprev
        simpa using hprev
      | succ k' =>
        rw [if_neg (Nat.succ_ne_zero k')]
        rw [if_neg (Nat.succ_ne_zero (k' + 1))] at hprev
        simpa using hprev
    have hnext' : ((∃ nt, ts'[k]? = some nt ∧
        getCacheDrivingTime cache b nt = some d_bc ∧
        getCacheDrivingTime cache a nt = some d_ac) ∨
        (ts'[k]? = none ∧ d_bc = 0 ∧ d_ac = 0)) := by
      rcases hnext with ⟨nt, hnt, hbc, hac⟩ | ⟨hnone, hbc0, hac0⟩
      · exact Or.inl ⟨nt, by simpa using hnt, hbc, hac⟩
      · exact Or.inr ⟨by simpa using hnone, hbc0, hac0⟩
    have ih := legsSumTerms_insertIdx cache k ts' x a b r0 d_ab d_bc d_ac
      hr0 hprev' hab hnext'
    rw [legsSumTerms_cons, hd0, Option.some_bind, ih, Option.some_bind,
      Option.some.injEq]
    linarith

theorem legsSumTerms_eraseIdx (cache : Terminal → Terminal → Option TimeDelta) :
    ∀ (k : Nat) (ts : List Terminal) (prev a b : Terminal)
      (s d_ab d_bc d_ac : TimeDelta),
    legsSumTerms cache prev ts = some s →
    ts[k]? = some b →
    (if k = 0 then some prev else ts[k - 1]?) = some a →
    getCacheDrivingTime cache a b = some d_ab →
    ((∃ nt, ts[k + 1]? = some nt ∧
        getCacheDrivingTime cache b nt = some d_bc ∧
        getCacheDrivingTime cache a nt = some d_ac) ∨
      (ts[k + 1]? = none ∧ d_bc = 0 ∧ d_ac = 0)) →
    legsSumTerms cache prev (ts.eraseIdx k) =
      some (s + d_ac - (d_ab + d_bc))
  | 0, [], prev, a, b, s, d_ab, d_bc, d_ac, hs, hb, hprev, hab, hnext => by
    simp at hb
  | 0, x :: ts0, prev, a, b, s, d_ab, d_bc, d_ac, hs, hb, hprev, hab, hnext => by
    rw [if_pos rfl] at hprev
    injection hprev with hprev
    subst hprev
    rw [List.getElem?_cons_zero] at hb
    injection hb with hb
    subst hb
    rw [List.eraseIdx_cons_zero]
    rw [legsSumTerms_cons] at hs
    simp only [Option.bind_eq_some, Option.some.injEq] at hs
    obtain ⟨d0, hd0, r0, hr0, heq⟩ := hs
    rw [hab] at hd0
    injection hd0 with hd0
    rcases hnext with ⟨nt, hnt, hbc, hac⟩ | ⟨hnone, hbc0, hac0⟩
    · cases ts0 with
      | nil => simp at hnt
      | cons y ts1 =>
        rw [List.getElem?_cons_succ, List.getElem?_cons_zero] at hnt
        injection hnt with hnt
        subst hnt
        rw [legsSumTerms_cons] at hr0
        simp only [Option.bind_eq_some, Option.some.injEq] at hr0
        obtain ⟨e0, he0, r1, hr1, heq1⟩ := hr0
        rw [hbc] at he0
        injection he0 with he0
        rw [legsSumTerms_cons, hac, Option.some_bind, hr1, Option.some_bind,
          Option.some.injEq]
        linarith
    · cases ts0 with
      | cons y ts1 => simp at hnone
      | nil =>
        rw [legsSumTerms_nil] at hr0
        injection hr0 with hr0
        rw [legsSumTerms_nil, Option.some.injEq]
        linarith
  | k + 1, [], prev, a, b, s, d_ab, d_bc, d_ac, hs, hb, hprev, hab, hnext => by
    simp at hb
  | k + 1, x :: ts', prev, a, b, s, d_ab, d_bc, d_ac, hs, hb, hprev, hab,
      hnext => by
    rw [List.eraseIdx_cons_succ]
    rw [legsSumTerms_cons] at hs
    simp only [Option.bind_eq_some, Option.some.injEq] at hs
    obtain ⟨d0, hd0, r0, hr0, heq⟩ := hs
    have hb' : ts'[k]? = some b := by simpa using hb
    have hprev' : (if k = 0 then some x else ts'[k - 1]?) = some a := by
      cases k with
      | zero =>
        rw [if_pos rfl]
        rw [if_neg (Nat.succ_ne_zero 0)] at hprev
        simpa using hprev
      | succ k' =>
        rw [if_neg (Nat.succ_ne_zero k')]
        rw [if_neg (Nat.succ_ne_zero (k' + 1))] at hprev
        simpa using hprev
    have hnext' : ((∃ nt, ts'[k + 1]? = some nt ∧
        getCacheDrivingTime cache b nt = some d_bc ∧
        getCacheDrivingTime cache a nt = some d_ac) ∨
        (ts'[k + 1]? = none ∧ d_bc = 0 ∧ d_ac = 0)) := by
      rcases hnext with ⟨nt, hnt, hbc, hac⟩ | ⟨hnone, hbc0, hac0⟩
      · exact Or.inl ⟨nt, by simpa using hnt, hbc, hac⟩
      · exact Or.inr ⟨by simpa using hnone, hbc0, hac0⟩
    have ih := legsSumTerms_eraseIdx cache k ts' x a b r0 d_ab d_bc d_ac
      hr0 hb' hprev' hab hnext'
    rw [legsSumTerms_cons, hd0, Option.some_bind, ih, Option.some_bind,
      Option.some.injEq]
    linarith

theorem map_terminal_set {l : List Checkpoint} {k : Nat} {cp : Checkpoint}
    (cp' : Checkpoint)
    (hget : l[k]? = some cp) (hterm : cp'.terminal = cp.terminal) :
    (l.set k cp').map (·.terminal) = l.map (·.terminal) := by
  have hlen : k < l.length := (List.getElem?_eq_some.mp hget).1
  apply List.ext_getElem?
  intro m
  rw [List.getElem?_map, List.getElem?_map]
  by_cases hm : k = m
  · subst hm
    rw [List.getElem?_set_self hlen, hget]
    simp [hterm]
  · rw [List.getElem?_set_ne hm]

theorem map_shape_set {l : List Checkpoint} {k : Nat} {cp : Checkpoint}
    (cp' : Checkpoint)
    (hget : l[k]? = some cp) (hterm : cp'.terminal = cp.terminal)
    (htime : cp'.time = cp.time) :
    (l.set k cp').map (·.terminal) = l.map (·.terminal) ∧
    (l.set k cp').map (·.time) = l.map (·.time) := by
  have hlen : k < l.length := (List.getElem?_eq_some.mp hget).1
  constructor
  · exact map_terminal_set cp' hget hterm
  · apply List.ext_getElem?
    intro m
    rw [List.getElem?_map, List.getElem?_map]
    by_cases hm : k = m
    · subst hm
      rw [List.getElem?_set_self hlen, hget]
      simp [htime]
    · rw [List.getElem?_set_ne hm]

theorem addRandomDelivery_shape {G : ScheduleGenerator} {S : Schedule}
    {truck : Truck} {cargo : Cargo} {i j : Nat} {t1 t2 : Time} {S1 : Schedule}
    (h : G.addRandomDelivery S truck cargo i j t1 t2 = some S1) :
    ∃ cps cpsB cpsC bi,
      alGet S.truck_checkpoints truck = some cps ∧
      listChainB (fun a b => decide (a.time < b.time)) cpsB = true ∧
      availSubLoop bi cpsB i (j - i) = some cpsC ∧
      cpsB.map (·.terminal) = cps.map (·.terminal) ∧
      S1 = { S with
        truck_checkpoints := alSet S.truck_checkpoints truck cpsC,
        scheduled_cargo_truck :=
          alInsert Cargo.id cargo truck S.scheduled_cargo_truck } := by
  unfold ScheduleGenerator.addRandomDelivery at h
  simp only [Option.bind_eq_bind, Option.bind_eq_some, Option.guard_eq_some',
    Option.pure_def, Option.some.injEq] at h
  obtain ⟨cps, hcps, u1, hij, start_cp, hstart, end_cp, hend, coll, hcoll,
    u2, hmemc, u3, hisnone, t1v, hfind1, cs, hcs, t2v, hfind2, ce, hce,
    u5, hchain, biv, hbiv, cpsCv, hlast⟩ := h
  refine ⟨cps, _, cpsCv, biv, hcps, hchain, hlast.1, ?_, hlast.2.symm⟩
  have hmap1 : (cps.set i { cs with
      pickup_cargo := insertCargo cargo cs.pickup_cargo,
      time := t1v }).map (·.terminal) = cps.map (·.terminal) :=
    map_terminal_set _ hcs rfl
  have hmap2 := map_terminal_set { ce with
      dropoff_cargo := insertCargo cargo ce.dropoff_cargo,
      time := t2v } hce rfl
  rw [hmap2, hmap1]

theorem addRandomDelivery_preserves {G : ScheduleGenerator} {S S' : Schedule}
    {truck : Truck} {cargo : Cargo} {i j : Nat} {t1 t2 : Time}
    (hsort : sortedTimesInv S) (hdrv : drivingTimesInv G S)
    (h : G.addRandomDelivery S truck cargo i j t1 t2 = some S') :
    sortedTimesInv S' ∧ drivingTimesInv G S' := by
  obtain ⟨cps, cpsB, cpsC, bi, hcps, hchain, hsub, hmapT, hS'⟩ :=
    addRandomDelivery_shape h
  obtain ⟨hmapsT, hmapsTime⟩ := availSubLoop_maps bi (j - i) cpsB i cpsC hsub
  subst hS'
  constructor
  · intro tr cps' hcps'
    dsimp only at hcps'
    by_cases htr : tr = truck
    · subst tr
      rw [alGet_alSet_self hcps] at hcps'
      injection hcps' with hcps'
      subst hcps'
      exact chain'_time_of_map_eq hmapsTime (listChainB_time_sorted hchain)
    · rw [alGet_alSet_ne _ _ _ _ htr] at hcps'
      exact hsort tr cps' hcps'
  · intro tr cps' td' hcps' htd'
    dsimp only at hcps' ⊢
    by_cases htr : tr = truck
    · subst tr
      rw [alGet_alSet_self hcps] at hcps'
      injection hcps' with hcps'
      subst hcps'
      rw [hmapsT, hmapT]
      exact hdrv truck cps td' hcps htd'
    · rw [alGet_alSet_ne _ _ _ _ htr] at hcps'
      exact hdrv tr cps' td' hcps' htd'

theorem removeRandomDelivery_preserves {G : ScheduleGenerator}
    {S S' : Schedule} {cargo : Cargo}
    (hsort : sortedTimesInv S) (hdrv : drivingTimesInv G S)
    (h : G.removeRandomDelivery S cargo = some S') :
    sortedTimesInv S' ∧ drivingTimesInv G S' := by
  obtain ⟨truck, cps, si, start_cp, ei, end_cp, bi, td, cpsF, htruck, hcps,
    hsi, hstart, hei, hend, hbi, htd, hsiei, haddL, hS'⟩ :=
    removeRandomDelivery_inv h
  obtain ⟨hmapsT, hmapsTime⟩ := availAddLoop_maps bi td (ei - si) _ si cpsF haddL
  obtain ⟨hm1T, hm1Time⟩ := map_shape_set { start_cp with
    pickup_cargo := removeCargo cargo start_cp.pickup_cargo } hstart rfl rfl
  obtain ⟨hm2T, hm2Time⟩ := map_shape_set { end_cp with
    dropoff_cargo := removeCargo cargo end_cp.dropoff_cargo } hend rfl rfl
  have hmT : cpsF.map (·.terminal) = cps.map (·.terminal) := by
    rw [hmapsT, hm2T, hm1T]
  have hmTime : cpsF.map (·.time) = cps.map (·.time) := by
    rw [hmapsTime, hm2Time, hm1Time]
  subst hS'
  constructor
  · intro tr cps' hcps'
    dsimp only at hcps'
    by_cases htr : tr = truck
    · subst tr
      rw [alGet_alSet_self hcps] at hcps'
      injection hcps' with hcps'
      subst hcps'
      exact chain'_time_of_map_eq hmTime (hsort truck cps hcps)
    · rw [alGet_alSet_ne _ _ _ _ htr] at hcps'
      exact hsort tr cps' hcps'
  · intro tr cps' td' hcps' htd'
    dsimp only at hcps' ⊢
    by_cases htr : tr = truck
    · subst tr
      rw [alGet_alSet_self hcps] at hcps'
      injection hcps' with hcps'
      subst hcps'
      rw [hmT]
      exact hdrv truck cps td' hcps htd'
    · rw [alGet_alSet_ne _ _ _ _ htr] at hcps'
      exact hdrv tr cps' td' hcps' htd'

theorem removeRandomCheckpoint_preserves {G : ScheduleGenerator}
    {S S' : Schedule} {truck : Truck} {index : Nat}
    (hsort : sortedTimesInv S) (hdrv : drivingTimesInv G S)
    (h : G.removeRandomCheckpoint S truck index = some S') :
    sortedTimesInv S' ∧ drivingTimesInv G S' := by
  unfold ScheduleGenerator.removeRandomCheckpoint at h
  simp only [prevAndNext, Option.bind_eq_bind, Option.bind_eq_some,
    Option.guard_eq_some', Option.pure_def, Option.some.injEq] at h
  obtain ⟨cps, hcps, cp, hcp, u1, hempt, ptn, hgap, u2, hne, u3, hinv,
    dt, hdt, dac, hdac, dab, hdab, dbc, hdbc, u4, hpos, hS'⟩ := h
  subst hS'
  have hsorted_new : List.Chain' (fun a b : Checkpoint => a.time < b.time)
      (cps.eraseIdx index) := checkTruckInvariant_sorted hinv
  have hsorted_old := hsort truck cps hcps
  obtain ⟨hprevEq, hnextEq⟩ := sorted_prevAndNext_at cps index cp hsorted_old hcp
  constructor
  · intro tr cps' hcps'
    dsimp only at hcps'
    by_cases htr : tr = truck
    · subst tr
      rw [alGet_alSet_self hcps] at hcps'
      injection hcps' with hcps'
      subst hcps'
      exact hsorted_new
    · rw [alGet_alSet_ne _ _ _ _ htr] at hcps'
      exact hsort tr cps' hcps'
  · intro tr cps' td' hcps' htd'
    dsimp only at hcps' ⊢
    by_cases htr : tr = truck
    swap
    · rw [alGet_alSet_ne _ _ _ _ htr] at hcps'
      rw [alGet_alSet_ne _ _ _ _ htr]
      exact hdrv tr cps' td' hcps' htd'
    subst tr
    rw [alGet_alSet_self hcps] at hcps'
    injection hcps' with hcps'
    subst hcps'
    rw [alGet_alSet_self hdt]
    have hold := hdrv truck cps td' hcps htd'
    rw [hdt] at hold
    rw [map_eraseIdx]
    have hb : (cps.map (·.terminal))[index]? = some cp.terminal := by
      rw [List.getElem?_map, hcp]
      rfl
    rw [hnextEq] at hdbc hdac
    have hfacts : ∃ a,
        (if index = 0 then some td'.starting_terminal
          else (cps.map (·.terminal))[index - 1]?) = some a ∧
        getCacheDrivingTime G.driving_times_cache a cp.terminal = some dab ∧
        ((∃ nt, (cps.map (·.terminal))[index + 1]? = some nt ∧
            getCacheDrivingTime G.driving_times_cache cp.terminal nt =
              some dbc ∧
            getCacheDrivingTime G.driving_times_cache a nt = some dac) ∨
          ((cps.map (·.terminal))[index + 1]? = none ∧ dbc = 0 ∧ dac = 0)) := by
      cases index with
      | zero =>
        rw [if_pos rfl] at hprevEq
        rw [hprevEq] at hdab hdac
        simp only [Option.map_none'] at hdab hdac
        obtain ⟨td0, htd0, hor⟩ := getDrivingTime_none_inv hdab
        rcases hor with ⟨b, hbeq, hcache⟩ | ⟨habs, _⟩
        · injection hbeq with hbeq
          subst hbeq
          rw [htd'] at htd0
          injection htd0 with htd0
          subst htd0
          refine ⟨td'.starting_terminal, if_pos rfl, hcache, ?_⟩
          cases hnx : cps[0 + 1]? with
          | some nxt =>
            rw [hnx] at hdbc hdac
            simp only [Option.map_some'] at hdbc hdac
            rw [getDrivingTime_some_some] at hdbc
            obtain ⟨td1, htd1, hor1⟩ := getDrivingTime_none_inv hdac
            rcases hor1 with ⟨b1, hbeq1, hcache1⟩ | ⟨habs1, _⟩
            · injection hbeq1 with hbeq1
              subst hbeq1
              rw [htd'] at htd1
              injection htd1 with htd1
              subst htd1
              refine Or.inl ⟨nxt.terminal, ?_, hdbc, hcache1⟩
              rw [List.getElem?_map, hnx]
              rfl
            · cases habs1
          | none =>
            rw [hnx] at hdbc hdac
            simp only [Option.map_none'] at hdbc hdac
            rw [getDrivingTime_some_none] at hdbc
            injection hdbc with hdbc
            obtain ⟨td1, htd1, hor1⟩ := getDrivingTime_none_inv hdac
            rcases hor1 with ⟨b1, hbeq1, _⟩ | ⟨_, hdac0⟩
            · cases hbeq1
            · refine Or.inr ⟨?_, hdbc.symm, hdac0⟩
              rw [List.getElem?_map, hnx]
              rfl
        · cases habs
      | succ k =>
        rw [if_neg (Nat.succ_ne_zero k)] at hprevEq
        have hklen : k < cps.length := by
          have := (List.getElem?_eq_some.mp hcp).1
          omega
        obtain ⟨pcp, hpcp⟩ : ∃ pcp, cps[k]? = some pcp :=
          ⟨_, List.getElem?_eq_getElem hklen⟩
        rw [Nat.succ_sub_one, hpcp] at hprevEq
        rw [hprevEq] at hdab hdac
        simp only [Option.map_some'] at hdab hdac
        rw [getDrivingTime_some_some] at hdab
        refine ⟨pcp.terminal, ?_, hdab, ?_⟩
        · rw [if_neg (Nat.succ_ne_zero k), Nat.succ_sub_one,
            List.getElem?_map, hpcp]
          rfl
        · cases hnx : cps[k + 1 + 1]? with
          | some nxt =>
            rw [hnx] at hdbc hdac
            simp only [Option.map_some'] at hdbc hdac
            rw [getDrivingTime_some_some] at hdbc hdac
            refine Or.inl ⟨nxt.terminal, ?_, hdbc, hdac⟩
            rw [List.getElem?_map, hnx]
            rfl
          | none =>
            rw [hnx] at hdbc hdac
            simp only [Option.map_none'] at hdbc hdac
            rw [getDrivingTime_some_none] at hdbc hdac
            injection hdbc with hdbc
            injection hdac with hdac
            refine Or.inr ⟨?_, hdbc.symm, hdac.symm⟩
            rw [List.getElem?_map, hnx]
            rfl
    obtain ⟨a, hifprev, hab, hdisj⟩ := hfacts
    have hmain := legsSumTerms_eraseIdx G.driving_times_cache index
      (cps.map (·.terminal)) td'.starting_terminal a cp.terminal
      dt dab dbc dac hold.symm hb hifprev hab hdisj
    exact hmain.symm



theorem addRandomCheckpoint_preserves {G : ScheduleGenerator}
    {S S' : Schedule} {truck : Truck} {gapT : Time} {newT : Terminal}
    {newTime : Time}
    (hsort : sortedTimesInv S) (hdrv : drivingTimesInv G S)
    (h : G.addRandomCheckpoint S truck gapT newT newTime = some S') :
    sortedTimesInv S' ∧ drivingTimesInv G S' := by
  unfold ScheduleGenerator.addRandomCheckpoint at h
  simp only [aroundGap, Option.bind_eq_bind, Option.bind_eq_some,
    Option.guard_eq_some', Option.pure_def, Option.some.injEq] at h
  obtain ⟨u0, hmem, u1, hwin, cps, hcps, ⟨pt, ntm⟩, hgap, u2, hposs,
    x3, hx3, iv, hiv, u5, htime, hrest⟩ := h
  dsimp only at hgap hrest
  have hsorted_old := hsort truck cps hcps
  obtain ⟨n, hnle, hniff, hfr, hff⟩ := sorted_gap_split cps gapT hsorted_old
  rw [hfr, hff] at hgap
  rw [hfr] at hrest
  rw [hfr, hff, hiv] at hx3
  have hwindow := getDrivingTimeConstraints_window hx3
  have hyle : ∀ (m : Nat) (y : Checkpoint), m < n → cps[m]? = some y →
      y.time ≤ newTime := by
    intro m y hm hy
    have hn0 : n ≠ 0 := by omega
    have hm1len : n - 1 < cps.length := by omega
    obtain ⟨pcp, hpcp⟩ : ∃ pcp, cps[n - 1]? = some pcp :=
      ⟨_, List.getElem?_eq_getElem hm1len⟩
    rw [if_neg hn0, hpcp] at hwindow
    dsimp only [Option.map_some', Option.getD_some] at hwindow
    have hyp : y.time ≤ pcp.time := by
      rcases Nat.lt_or_ge m (n - 1) with hlt | hge
      · exact le_of_lt (chainLt_getElem?_lt hsorted_old m (n - 1) y pcp hlt
          hy hpcp)
      · have : m = n - 1 := by omega
        subst this
        rw [hy] at hpcp
        injection hpcp with hpcp
        subst hpcp
        exact le_refl _
    exact le_trans hyp (le_trans hwindow.1 htime.1)
  have hk : (cps.findIdx? (fun cp => decide (newTime < cp.time))).getD
      cps.length = n := by
    cases hnn : cps[n]? with
    | some nxt =>
      have hlt : newTime < nxt.time := by
        rw [hnn] at hwindow
        dsimp only [Option.map_some', Option.getD_some] at hwindow
        exact lt_of_lt_of_le htime.2 hwindow.2
      have : cps.findIdx? (fun cp => decide (newTime < cp.time)) = some n := by
        apply findIdx?_eq_some_of _ _ _ _ hnn
        · rw [decide_eq_true_eq]
          exact hlt
        · intro m hm y hy
          rw [decide_eq_false_iff_not]
          exact not_lt.mpr (hyle m y hm hy)
      rw [this]
      rfl
    | none =>
      have hlen : cps.length = n := by
        have : cps.length ≤ n := by
          by_contra hq
          push_neg at hq
          obtain ⟨y, hy⟩ : ∃ y, cps[n]? = some y :=
            ⟨_, List.getElem?_eq_getElem hq⟩
          rw [hnn] at hy
          cases hy
        omega
      have : cps.findIdx? (fun cp => decide (newTime < cp.time)) = none := by
        rw [List.findIdx?_eq_none_iff]
        intro y hy
        rw [List.mem_iff_getElem?] at hy
        obtain ⟨m, hm⟩ := hy
        have hmlen : m < cps.length := (List.getElem?_eq_some.mp hm).1
        rw [decide_eq_false_iff_not]
        exact not_lt.mpr (hyle m y (by omega) hm)
      rw [this]
      exact hlen
  rw [hk] at hrest
  cases n with
  | zero =>
    rw [if_pos rfl] at hgap hrest
    simp only [Option.some_bind, Option.bind_eq_some, Option.guard_eq_some',
      Option.some.injEq] at hrest
    obtain ⟨td0, htd0, u6, hinv, dt, hdt, dac, hdac, dab, hdab, dbc, hdbc,
      u7, hpos, hS'⟩ := hrest
    subst hS'
    obtain ⟨td1, htd1, hpt, hntm⟩ := getGapTerminals_none_prev_inv hgap
    subst hpt
    constructor
    · intro tr cps' hcps'
      dsimp only at hcps'
      by_cases htr : tr = truck
      · subst tr
        rw [alGet_alSet_self hcps] at hcps'
        injection hcps' with hcps'
        subst hcps'
        exact checkTruckInvariant_sorted hinv
      · rw [alGet_alSet_ne _ _ _ _ htr] at hcps'
        exact hsort tr cps' hcps'
    · intro tr cps' td' hcps' htd'
      dsimp only at hcps' ⊢
      by_cases htr : tr = truck
      swap
      · rw [alGet_alSet_ne _ _ _ _ htr] at hcps'
        rw [alGet_alSet_ne _ _ _ _ htr]
        exact hdrv tr cps' td' hcps' htd'
      subst tr
      rw [alGet_alSet_self hcps] at hcps'
      injection hcps' with hcps'
      subst hcps'
      rw [alGet_alSet_self hdt]
      have hold := hdrv truck cps td' hcps htd'
      rw [hdt] at hold
      rw [map_insertIdx]
      rw [htd'] at htd1
      injection htd1 with htd1
      subst htd1
      rw [getDrivingTime_some_some] at hdab
      have hdisj : ((∃ nt, (cps.map (·.terminal))[0]? = some nt ∧
          getCacheDrivingTime G.driving_times_cache newT nt = some dbc ∧
          getCacheDrivingTime G.driving_times_cache td'.starting_terminal nt =
            some dac) ∨
          ((cps.map (·.terminal))[0]? = none ∧ dbc = 0 ∧ dac = 0)) := by
        cases hnn : cps[0]? with
        | some nxt =>
          rw [hnn] at hntm
          dsimp only [Option.map_some'] at hntm
          rw [hntm, getDrivingTime_some_some] at hdac hdbc
          refine Or.inl ⟨nxt.terminal, ?_, hdbc, hdac⟩
          rw [List.getElem?_map, hnn]
          rfl
        | none =>
          rw [hnn] at hntm
          dsimp only [Option.map_none'] at hntm
          rw [hntm, getDrivingTime_some_none] at hdac hdbc
          injection hdac with hdac
          injection hdbc with hdbc
          refine Or.inr ⟨?_, hdbc.symm, hdac.symm⟩
          rw [List.getElem?_map, hnn]
          rfl
      have hmain := legsSumTerms_insertIdx G.driving_times_cache 0
        (cps.map (·.terminal)) td'.starting_terminal td'.starting_terminal
        newT dt dab dbc dac hold.symm (if_pos rfl) hdab hdisj
      exact hmain.symm
  | succ m =>
    have hmlen : m < cps.length := by omega
    obtain ⟨pcp, hpcp⟩ : ∃ pcp, cps[m]? = some pcp :=
      ⟨_, List.getElem?_eq_getElem hmlen⟩
    rw [if_neg (Nat.succ_ne_zero m), Nat.succ_sub_one, hpcp] at hgap hrest
    simp only [Option.some_bind, Option.bind_eq_some, Option.guard_eq_some',
      Option.some.injEq] at hrest
    obtain ⟨u6, hinv, dt, hdt, dac, hdac, dab, hdab, dbc, hdbc,
      u7, hpos, hS'⟩ := hrest
    subst hS'
    rw [getGapTerminals_some_prev, Option.some.injEq, Prod.mk.injEq] at hgap
    obtain ⟨hpt, hntm⟩ := hgap
    subst hpt
    constructor
    · intro tr cps' hcps'
      dsimp only at hcps'
      by_cases htr : tr = truck
      · subst tr
        rw [alGet_alSet_self hcps] at hcps'
        injection hcps' with hcps'
        subst hcps'
        exact checkTruckInvariant_sorted hinv
      · rw [alGet_alSet_ne _ _ _ _ htr] at hcps'
        exact hsort tr cps' hcps'
    · intro tr cps' td' hcps' htd'
      dsimp only at hcps' ⊢
      by_cases htr : tr = truck
      swap
      · rw [alGet_alSet_ne _ _ _ _ htr] at hcps'
        rw [alGet_alSet_ne _ _ _ _ htr]
        exact hdrv tr cps' td' hcps' htd'
      subst tr
      rw [alGet_alSet_self hcps] at hcps'
      injection hcps' with hcps'
      subst hcps'
      rw [alGet_alSet_self hdt]
      have hold := hdrv truck cps td' hcps htd'
      rw [hdt] at hold
      rw [map_insertIdx]
      rw [getDrivingTime_some_some] at hdab
      have hifprev : (if m + 1 = 0 then some td'.starting_terminal
          else (cps.map (·.terminal))[m + 1 - 1]?) = some pcp.terminal := by
        rw [if_neg (Nat.succ_ne_zero m), Nat.succ_sub_one,
          List.getElem?_map, hpcp]
        rfl
      have hdisj : ((∃ nt, (cps.map (·.terminal))[m + 1]? = some nt ∧
          getCacheDrivingTime G.driving_times_cache newT nt = some dbc ∧
          getCacheDrivingTime G.driving_times_cache pcp.terminal nt =
            some dac) ∨
          ((cps.map (·.terminal))[m + 1]? = none ∧ dbc = 0 ∧ dac = 0)) := by
        cases hnn : cps[m + 1]? with
        | some nxt =>
          rw [hnn] at hntm
          dsimp only [Option.map_some'] at hntm
          rw [← hntm, getDrivingTime_some_some] at hdac hdbc
          refine Or.inl ⟨nxt.terminal, ?_, hdbc, hdac⟩
          rw [List.getElem?_map, hnn]
          rfl
        | none =>
          rw [hnn] at hntm
          dsimp only [Option.map_none'] at hntm
          rw [← hntm, getDrivingTime_some_none] at hdac hdbc
          injection hdac with hdac
          injection hdbc with hdbc
          refine Or.inr ⟨?_, hdbc.symm, hdac.symm⟩
          rw [List.getElem?_map, hnn]
          rfl
      have hmain := legsSumTerms_insertIdx G.driving_times_cache (m + 1)
        (cps.map (·.terminal)) td'.starting_terminal pcp.terminal
        newT dt dab dbc dac hold.symm hifprev hdab hdisj
      exact hmain.symm

theorem attemptAction_preserves {G : ScheduleGenerator} {S S' : Schedule}
    {ai : Nat} {c : MutationChoice}
    (hsort : sortedTimesInv S) (hdrv : drivingTimesInv G S)
    (h : G.attemptAction S ai c = some S') :
    sortedTimesInv S' ∧ drivingTimesInv G S' := by
  unfold ScheduleGenerator.attemptAction at h
  match ai, h with
  | 0, h => exact removeRandomCheckpoint_preserves hsort hdrv h
  | 1, h => exact addRandomCheckpoint_preserves hsort hdrv h
  | 2, h => exact removeRandomDelivery_preserves hsort hdrv h
  | 3, h => exact addRandomDelivery_preserves hsort hdrv h
  | (n + 4), h => exact absurd h (by simp)

theorem emptySchedule_sorted (G : ScheduleGenerator) :
    sortedTimesInv G.emptySchedule := by
  intro truck cps hcps
  unfold ScheduleGenerator.emptySchedule at hcps
  dsimp only at hcps
  rw [alGet_map_const] at hcps
  split at hcps
  · injection hcps with hcps
    subst hcps
    exact List.chain'_nil
  · cases hcps

theorem emptySchedule_driving (G : ScheduleGenerator) :
    drivingTimesInv G G.emptySchedule := by
  intro truck cps td hcps htd
  unfold ScheduleGenerator.emptySchedule at hcps ⊢
  dsimp only at hcps ⊢
  rw [alGet_map_const] at hcps
  rw [alGet_map_const]
  split at hcps
  · injection hcps with hcps
    subst hcps
    rename_i hmem
    rw [if_pos hmem]
    rfl
  · cases hcps

theorem reachable_invariants {G : ScheduleGenerator} {S : Schedule}
    (h : Reachable G S) : sortedTimesInv S ∧ drivingTimesInv G S := by
  induction h with
  | empty => exact ⟨emptySchedule_sorted G, emptySchedule_driving G⟩
  | step ai c hreach hact ih =>
    exact attemptAction_preserves ih.1 ih.2 hact

/-- C2: for every schedule reachable from `empty_schedule` by successful
mutation-operator calls and every truck present in the schedule and in
`truck_data`, the cached `truck_driving_times` entry equals the sum of
driving-time matrix entries over the consecutive legs of the truck's
checkpoint sequence, including the initial leg from the truck's starting
terminal (and `0` for a truck with no checkpoints, the empty sum). -/
theorem c2_driving_times_invariant (G : ScheduleGenerator) (S : Schedule)
    (h : Reachable G S) : drivingTimesInv G S :=
  (reachable_invariants h).2

/-- Witness for `c2_driving_times_invariant`: the empty schedule of the
concrete generator `G3` is reachable, and the theorem instantiates to it. -/
theorem c2_driving_times_invariant_witness :
    Reachable G3 G3.emptySchedule ∧ drivingTimesInv G3 G3.emptySchedule :=
  ⟨Reachable.empty,
    c2_driving_times_invariant G3 G3.emptySchedule Reachable.empty⟩
